import Mathlib

/-!
Verification of the multi-agent AWS/Azure infrastructure-optimization pipeline.

The development embeds, as executable Lean definitions, the parts of the
source that the specification's claims are about:

* a model of Python's `json.loads` on strings (values are `Json` below;
  numeric literals are kept as their lexemes, so float formatting is not
  re-modelled — no claim depends on float arithmetic or float printing;
  lone surrogate `\uXXXX` escapes are rejected by the model although CPython
  would keep them, an under-acceptance that no claim depends on),
* a model of `json.dumps(..., indent=2)` with `ensure_ascii` escaping,
* the bracket-scan structured extraction performed by each agent stage in
  `main.py` (find first `[`/`{`, rfind last `]`/`}`, slice, parse, fall back
  to a placeholder record on failure),
* the agent stage functions `finops_agent`, `performance_agent`,
  `moderator_agent` of `main.py` with the model invocation stubbed by a raw
  response string, and the linear LangGraph workflow connecting them,
* `parse_github_url` of `data/github_extractor.py` (the `re.search` of
  `github\.com/([^/]+)/([^/]+)` followed by `.replace(".git", "")`),
* `parse_terraform_file` of `main.py` over an abstract filesystem,
* the prompt templates of `main.py` and `agents/finops.py`.
-/

/-- A parsed JSON value.  Numbers keep their source lexeme (`"1"`, `"2.5"`,
`"NaN"`, ...): no claim inspects numeric semantics, and this keeps the
embedding of `json.loads` total and executable.  Objects are insertion-ordered
key/value lists, as Python dicts are. -/
inductive Json where
  | null : Json
  | bool (b : Bool) : Json
  | num (lexeme : String) : Json
  | str (s : String) : Json
  | arr (xs : List Json) : Json
  | obj (kvs : List (String × Json)) : Json

/-- JSON whitespace, as in Python's `json` module (`' \t\n\r'`). -/
def jsonWsChar (c : Char) : Bool :=
  c = ' ' ∨ c = '\t' ∨ c = '\n' ∨ c = '\r'

/-- Skip JSON whitespace (the `_w(s, idx)` step of the Python decoder). -/
def skipWs (cs : List Char) : List Char := cs.dropWhile jsonWsChar

/-- Value of one hex digit, accepting both cases as `\uXXXX` does. -/
def hexVal? (c : Char) : Option Nat :=
  if '0' ≤ c ∧ c ≤ '9' then some (c.toNat - 48)
  else if 'a' ≤ c ∧ c ≤ 'f' then some (c.toNat - 87)
  else if 'A' ≤ c ∧ c ≤ 'F' then some (c.toNat - 55)
  else none

/-- Short escapes accepted after a backslash in a JSON string. -/
def escChar? (c : Char) : Option Char :=
  if c = '"' then some '"'
  else if c = '\\' then some '\\'
  else if c = '/' then some '/'
  else if c = 'b' then some (Char.ofNat 8)
  else if c = 'f' then some (Char.ofNat 12)
  else if c = 'n' then some '\n'
  else if c = 'r' then some '\r'
  else if c = 't' then some '\t'
  else none

/-- Combine four hex digits of a `\uXXXX` escape. -/
def hex4? (h1 h2 h3 h4 : Char) : Option Nat := do
  let a ← hexVal? h1
  let b ← hexVal? h2
  let c ← hexVal? h3
  let d ← hexVal? h4
  pure (a * 4096 + b * 256 + c * 16 + d)

/-- Body of a JSON string after the opening quote: returns the decoded
characters and the input remaining after the closing quote.  Mirrors the
strict-mode `py_scanstring`: raw control characters below `0x20` are
rejected, `\uXXXX` escapes are decoded and surrogate pairs combined. -/
def parseStrBody : List Char → Option (List Char × List Char)
  | [] => none
  | '"' :: rest => some ([], rest)
  | '\\' :: 'u' :: h1 :: h2 :: h3 :: h4 :: rest =>
    match hex4? h1 h2 h3 h4 with
    | none => none
    | some n =>
      if 0xD800 ≤ n ∧ n < 0xDC00 then
        match rest with
        | '\\' :: 'u' :: g1 :: g2 :: g3 :: g4 :: rest2 =>
          match hex4? g1 g2 g3 g4 with
          | none => none
          | some m =>
            if 0xDC00 ≤ m ∧ m < 0xE000 then
              (parseStrBody rest2).map fun p =>
                (Char.ofNat (0x10000 + (n - 0xD800) * 1024 + (m - 0xDC00)) :: p.1, p.2)
            else none
        | _ => none
      else if 0xDC00 ≤ n ∧ n < 0xE000 then none
      else (parseStrBody rest).map fun p => (Char.ofNat n :: p.1, p.2)
  | '\\' :: c :: rest =>
    match escChar? c with
    | none => none
    | some e => (parseStrBody rest).map fun p => (e :: p.1, p.2)
  | c :: rest =>
    if c.toNat < 32 then none
    else (parseStrBody rest).map fun p => (c :: p.1, p.2)

/-- Integer part of the JSON number grammar: `0` or a nonzero digit followed
by digits (leading zeros stop the match, as in the decoder's `NUMBER_RE`). -/
def scanIntPart : List Char → Option (List Char × List Char)
  | [] => none
  | c :: r =>
    if c = '0' then some (['0'], r)
    else if c.isDigit then some (c :: r.takeWhile Char.isDigit, r.dropWhile Char.isDigit)
    else none

/-- Optional fraction part `(\.\d+)?`: consumed only when a digit follows
the dot, otherwise nothing is consumed. -/
def scanFrac (cs : List Char) : List Char × List Char :=
  match cs with
  | c :: r =>
    if c = '.' then
      if (r.takeWhile Char.isDigit).isEmpty then ([], cs)
      else ('.' :: r.takeWhile Char.isDigit, r.dropWhile Char.isDigit)
    else ([], cs)
  | [] => ([], cs)

/-- Optional exponent part `([eE][-+]?\d+)?`: consumed only when at least one
digit follows, otherwise nothing is consumed. -/
def scanExp (cs : List Char) : List Char × List Char :=
  match cs with
  | e :: rest =>
    if e = 'e' ∨ e = 'E' then
      match rest with
      | s :: r2 =>
        if s = '+' ∨ s = '-' then
          if (r2.takeWhile Char.isDigit).isEmpty then ([], cs)
          else (e :: s :: r2.takeWhile Char.isDigit, r2.dropWhile Char.isDigit)
        else
          if (rest.takeWhile Char.isDigit).isEmpty then ([], cs)
          else (e :: rest.takeWhile Char.isDigit, rest.dropWhile Char.isDigit)
      | [] => ([], cs)
    else ([], cs)
  | [] => ([], [])

/-- Optional leading minus sign of a number. -/
def scanSign (cs : List Char) : List Char × List Char :=
  match cs with
  | c :: r => if c = '-' then (['-'], r) else ([], cs)
  | [] => ([], cs)

/-- Number or `-Infinity` constant at the current position (the scanner tries
`NUMBER_RE` and the constants when no other value matched). -/
def scanNumber (cs : List Char) : Option (Json × List Char) :=
  if "-Infinity".data.isPrefixOf cs then some (Json.num "-Infinity", cs.drop 9)
  else
    match scanIntPart (scanSign cs).2 with
    | none => none
    | some (ip, r1) =>
      some (Json.num (String.mk
          ((scanSign cs).1 ++ ip ++ (scanFrac r1).1 ++ (scanExp (scanFrac r1).2).1)),
        (scanExp (scanFrac r1).2).2)

/-- Insert into a Python dict modelled as an insertion-ordered list: an
existing key keeps its position and gets the new value, a new key is
appended. -/
def dictInsert (kvs : List (String × Json)) (k : String) (v : Json) : List (String × Json) :=
  match kvs with
  | [] => [(k, v)]
  | (k0, v0) :: rest => if k0 = k then (k0, v) :: rest else (k0, v0) :: dictInsert rest k v

/-- Build a Python dict from decoded key/value pairs (`dict(pairs)`). -/
def toPyDict (pairs : List (String × Json)) : List (String × Json) :=
  pairs.foldl (fun acc kv => dictInsert acc kv.1 kv.2) []

mutual
/-- One JSON value at the current position (no leading whitespace), with the
rest of the input; `fuel` bounds recursion depth and is chosen large enough
at the top entry.  Follows the Python `scan_once` dispatch: `[`, `\x7b`,
`"`, the constants, then the number grammar. -/
def parseVal : Nat → List Char → Option (Json × List Char)
  | 0, _ => none
  | Nat.succ f, cs =>
    match cs with
    | [] => none
    | c :: rest =>
      if c = '[' then parseArrTail f (skipWs rest)
      else if c = '\x7b' then parseObjTail f (skipWs rest)
      else if c = '"' then (parseStrBody rest).map fun p => (Json.str (String.mk p.1), p.2)
      else if "true".data.isPrefixOf cs then some (Json.bool true, cs.drop 4)
      else if "false".data.isPrefixOf cs then some (Json.bool false, cs.drop 5)
      else if "null".data.isPrefixOf cs then some (Json.null, cs.drop 4)
      else if "NaN".data.isPrefixOf cs then some (Json.num "NaN", cs.drop 3)
      else if "Infinity".data.isPrefixOf cs then some (Json.num "Infinity", cs.drop 8)
      else scanNumber cs

/-- The array after its `[`, at the whitespace-skipped position: either the
immediate `]` of an empty array or the element list. -/
def parseArrTail : Nat → List Char → Option (Json × List Char)
  | 0, _ => none
  | Nat.succ f, cs =>
    match cs with
    | [] => none
    | c :: r2 =>
      if c = ']' then some (Json.arr [], r2)
      else (parseElems f (c :: r2)).map fun p => (Json.arr p.1, p.2)

/-- The object after its `\x7b`, at the whitespace-skipped position. -/
def parseObjTail : Nat → List Char → Option (Json × List Char)
  | 0, _ => none
  | Nat.succ f, cs =>
    match cs with
    | [] => none
    | c :: r2 =>
      if c = '\x7d' then some (Json.obj [], r2)
      else (parseMembers f (c :: r2)).map fun p => (Json.obj (toPyDict p.1), p.2)

/-- Array elements: a value, then `]` to finish or `,` to continue. -/
def parseElems : Nat → List Char → Option (List Json × List Char)
  | 0, _ => none
  | Nat.succ f, cs =>
    match parseVal f cs with
    | none => none
    | some (v, r0) =>
      match skipWs r0 with
      | [] => none
      | d :: r2 =>
        if d = ']' then some ([v], r2)
        else if d = ',' then
          match parseElems f (skipWs r2) with
          | none => none
          | some (vs, r3) => some (v :: vs, r3)
        else none

/-- Object members: a quoted key, `:`, a value, then `\x7d` or `,`. -/
def parseMembers : Nat → List Char → Option (List (String × Json) × List Char)
  | 0, _ => none
  | Nat.succ f, cs =>
    match cs with
    | [] => none
    | c :: r =>
      if c = '"' then
        match parseStrBody r with
        | none => none
        | some (kcs, r1) =>
          match skipWs r1 with
          | [] => none
          | d :: r2 =>
            if d = ':' then
              match parseVal f (skipWs r2) with
              | none => none
              | some (v, r3) =>
                match skipWs r3 with
                | [] => none
                | d2 :: r4 =>
                  if d2 = '\x7d' then some ([(String.mk kcs, v)], r4)
                  else if d2 = ',' then
                    match parseMembers f (skipWs r4) with
                    | none => none
                    | some (kvs, r5) => some ((String.mk kcs, v) :: kvs, r5)
                  else none
            else none
      else none
end

/-- The sole exception kind raised by the modelled `json.loads`. -/
inductive PyJsonError where
  | decodeError : PyJsonError
deriving DecidableEq

/-- Fuel sufficient for any nesting in an input of this length. -/
def loadsFuel (cs : List Char) : Nat := 4 * cs.length + 8

/-- Model of `json.loads` on a character list: skip whitespace, decode one value,
skip whitespace, and demand the end of input (`Extra data` otherwise). -/
def pyLoadsCore (cs : List Char) : Except PyJsonError Json :=
  match parseVal (loadsFuel cs) (skipWs cs) with
  | some (v, rest) =>
    if (skipWs rest).isEmpty then Except.ok v else Except.error PyJsonError.decodeError
  | none => Except.error PyJsonError.decodeError

/-- Model of `json.loads` on a string. -/
def pyLoads (s : String) : Except PyJsonError Json := pyLoadsCore s.data

example : pyLoads " [1, \"a\"] " = Except.ok (Json.arr [Json.num "1", Json.str "a"]) := rfl

example : pyLoads "not json at all" = Except.error PyJsonError.decodeError := rfl

example : pyLoads "\x7b\"a\": 1\x7d" = Except.ok (Json.obj [("a", Json.num "1")]) := rfl

example : pyLoads "123" = Except.ok (Json.num "123") := rfl

example : pyLoads "[1,2" = Except.error PyJsonError.decodeError := rfl

/-- Lowercase hex digit, as `json.dumps` emits in `\uXXXX` escapes. -/
def hexDigit (n : Nat) : Char :=
  if n < 10 then Char.ofNat (48 + n) else Char.ofNat (87 + n)

/-- Four-digit lowercase hex rendering of `n < 0x10000`. -/
def hex4 (n : Nat) : List Char :=
  [hexDigit (n / 4096 % 16), hexDigit (n / 256 % 16), hexDigit (n / 16 % 16), hexDigit (n % 16)]

/-- Escaping of one character by `json.dumps` with the default
`ensure_ascii=True`: short escapes for the usual controls, `\uXXXX` for
every character outside the printable ASCII range `0x20`..`0x7e` (surrogate
pairs above `0xFFFF`), the character itself otherwise. -/
def jsonEscapeChar (c : Char) : List Char :=
  if c = '"' then ['\\', '"']
  else if c = '\\' then ['\\', '\\']
  else if c = '\n' then ['\\', 'n']
  else if c = '\r' then ['\\', 'r']
  else if c = '\t' then ['\\', 't']
  else if c.toNat = 8 then ['\\', 'b']
  else if c.toNat = 12 then ['\\', 'f']
  else if c.toNat < 32 ∨ c.toNat > 126 then
    if c.toNat < 0x10000 then '\\' :: 'u' :: hex4 c.toNat
    else
      let v := c.toNat - 0x10000
      ('\\' :: 'u' :: hex4 (0xD800 + v / 1024)) ++ ('\\' :: 'u' :: hex4 (0xDC00 + v % 1024))
  else [c]

/-- A JSON string literal as emitted by `json.dumps`. -/
def quoteJsonString (s : String) : String :=
  String.mk ('"' :: s.data.foldr (fun c acc => jsonEscapeChar c ++ acc) ['"'])

/-- A run of `n` spaces. -/
def spaces (n : Nat) : String := String.mk (List.replicate n ' ')

mutual
/-- Model of `json.dumps(v, indent=2)` at the given current indentation width. -/
def dumpsVal : Json → Nat → String
  | Json.null, _ => "null"
  | Json.bool true, _ => "true"
  | Json.bool false, _ => "false"
  | Json.num lx, _ => lx
  | Json.str s, _ => quoteJsonString s
  | Json.arr l, ind =>
    if l.isEmpty then "[]"
    else "[\n" ++ dumpsItems l (ind + 2) ++ "\n" ++ spaces ind ++ "]"
  | Json.obj l, ind =>
    if l.isEmpty then "\x7b\x7d"
    else "\x7b\n" ++ dumpsMembers l (ind + 2) ++ "\n" ++ spaces ind ++ "\x7d"

/-- Comma-with-newline separated array items, each on its own indented line. -/
def dumpsItems : List Json → Nat → String
  | [], _ => ""
  | [x], ind => spaces ind ++ dumpsVal x ind
  | x :: y :: xs, ind => spaces ind ++ dumpsVal x ind ++ ",\n" ++ dumpsItems (y :: xs) ind

/-- Comma-with-newline separated object members, each on its own indented line. -/
def dumpsMembers : List (String × Json) → Nat → String
  | [], _ => ""
  | [(k, v)], ind => spaces ind ++ quoteJsonString k ++ ": " ++ dumpsVal v ind
  | (k, v) :: m :: kvs, ind =>
    spaces ind ++ quoteJsonString k ++ ": " ++ dumpsVal v ind ++ ",\n" ++ dumpsMembers (m :: kvs) ind
end

/-- Model of `json.dumps(v, indent=2)`. -/
def dumpsTop (v : Json) : String := dumpsVal v 0

example : dumpsTop (Json.arr [Json.obj [("a", Json.num "1")]]) =
    "[\n  \x7b\n    \"a\": 1\n  \x7d\n]" := rfl

/-- Python `str.find` for a single character: index of the first occurrence. -/
def firstIdx (c : Char) : List Char → Option Nat
  | [] => none
  | x :: xs => if x = c then some 0 else (firstIdx c xs).map (· + 1)

/-- Python `str.rfind` for a single character: index of the last occurrence. -/
def lastIdx (c : Char) : List Char → Option Nat
  | [] => none
  | x :: xs =>
    match lastIdx c xs with
    | some k => some (k + 1)
    | none => if x = c then some 0 else none

/-- Python slice `cs[s:e]` for `0 ≤ s ≤ e`. -/
def pySlice (cs : List Char) (s e : Nat) : List Char := (cs.drop s).take (e - s)

/-- The delimiter scan shared by every stage of `main.py`:
`start_idx = text.find(open); end_idx = text.rfind(close) + 1`, and the slice
`text[start_idx:end_idx]` when `start_idx != -1 and end_idx > start_idx`. -/
def bracketSlice? (opn cls : Char) (cs : List Char) : Option (List Char) :=
  match firstIdx opn cs, lastIdx cls cs with
  | some s, some e => if s < e + 1 then some (pySlice cs s (e + 1)) else none
  | _, _ => none

/-- Python `str.strip()` whitespace (ASCII: space, tab, newline, return,
vertical tab, form feed; non-ASCII whitespace is not needed by any claim). -/
def pyStripWs (c : Char) : Bool :=
  c = ' ' ∨ c = '\t' ∨ c = '\n' ∨ c = '\r' ∨ c.toNat = 11 ∨ c.toNat = 12

/-- Python `str.strip()`. -/
def pyStrip (s : String) : String :=
  String.mk (((s.data.dropWhile pyStripWs).reverse.dropWhile pyStripWs).reverse)

/-- The placeholder proposal substituted by `finops_agent` when no JSON list
could be recovered from the model output. -/
def finopsPlaceholder (text : String) : Json :=
  Json.obj [("description", Json.str text), ("estimated_savings", Json.str "TBD"),
    ("complexity", Json.str "Unknown"), ("affected_services", Json.arr [])]

/-- The placeholder feedback substituted by `performance_agent` when no JSON
list could be recovered from the model output. -/
def performancePlaceholder (text : String) : Json :=
  Json.obj [("risk_level", Json.str "Unknown"), ("impact", Json.str text),
    ("mitigation", Json.str "N/A"), ("sla_impact", Json.str "Unknown")]

/-- The `try:` block of the array-shaped extraction in `finops_agent` and
`performance_agent` of `main.py`: slice between the first `[` and the last
`]` if such a slice exists, else the whole text; `json.loads` it (errors
propagate out of the block); replace a parsed non-list by the one-element
placeholder list.  The boolean records whether the placeholder was used. -/
def arrayTryBody (ph : String → Json) (text : String) : Except PyJsonError (List Json × Bool) :=
  let parsed : Except PyJsonError Json :=
    match bracketSlice? '[' ']' text.data with
    | some js => pyLoadsCore js
    | none => pyLoadsCore text.data
  match parsed with
  | Except.error e => Except.error e
  | Except.ok (Json.arr xs) => Except.ok (xs, false)
  | Except.ok _ => Except.ok ([ph text], true)

/-- The whole `try/except json.JSONDecodeError` of the array-shaped
extraction, as an exception-transparent function: a decode error from the
`try:` block is caught and replaced by the placeholder list, so the result
is an `Except` that is provably never `error`. -/
def arrayExtractStep (ph : String → Json) (text : String) :
    Except PyJsonError (List Json × Bool) :=
  match arrayTryBody ph text with
  | Except.ok r => Except.ok r
  | Except.error _ => Except.ok ([ph text], true)

/-- The array-shaped extraction as the total function the callers see. -/
def arrayExtract (ph : String → Json) (text : String) : List Json × Bool :=
  match arrayTryBody ph text with
  | Except.ok r => r
  | Except.error _ => ([ph text], true)

/-- The `try:` block of the object-shaped extraction in `moderator_agent` of
`main.py`: slice between the first `\x7b` and the last `\x7d` if such a
slice exists, else the whole text, then `json.loads`.  Unlike the array
shape there is no type check on the parsed value. -/
def objectTryBody (text : String) : Except PyJsonError Json :=
  match bracketSlice? '\x7b' '\x7d' text.data with
  | some js => pyLoadsCore js
  | none => pyLoadsCore text.data

/-- The placeholder decision substituted by `moderator_agent` on parse
failure. -/
def moderatorPlaceholder (text : String) : Json :=
  Json.obj [("analysis", Json.str text), ("error", Json.str "Failed to parse JSON")]

/-- The whole object-shaped `try/except` of `moderator_agent` in `main.py`,
exception-transparent. -/
def objectExtractStep (text : String) : Except PyJsonError (Json × Bool) :=
  match objectTryBody text with
  | Except.ok v => Except.ok (v, false)
  | Except.error _ => Except.ok (moderatorPlaceholder text, true)

/-- The object-shaped extraction as the total function the caller sees. -/
def objectExtract (text : String) : Json × Bool :=
  match objectTryBody text with
  | Except.ok v => (v, false)
  | Except.error _ => (moderatorPlaceholder text, true)

/-- The parse performed on the model output by `moderator_agent` in
`agents/moderator.py`: `evaluation = json.loads(response_text)` with no
surrounding `try/except`, so a decode error propagates to the caller. -/
def agentsModeratorEvaluation (responseContent : String) : Except PyJsonError Json :=
  pyLoads (pyStrip responseContent)

example : arrayExtract finopsPlaceholder "not json at all" =
    ([finopsPlaceholder "not json at all"], true) := rfl

example : objectExtract "123" = (Json.num "123", false) := rfl

/-- The LangGraph `AgentState` of `main.py`.  `cloud_stats` is an opaque
JSON-like mapping; `turn_count` starts at 0 and is only ever incremented. -/
structure AgentState where
  terraform_config : String
  cloud_stats : Json
  finops_proposals : List Json
  performance_feedback : List Json
  final_recommendation : Option String
  turn_count : Nat
  negotiation_history : List String

/-- The stage `finops_agent` of `main.py` with the model invocation stubbed: the stage
receives the raw completion `responseContent` in place of
`llm.invoke(...).content`.  It strips the text, extracts an array-shaped
result, and returns the partial state update LangGraph merges (replacing
`finops_proposals`, `turn_count`, `negotiation_history`). -/
def finops_agent (state : AgentState) (responseContent : String) : AgentState :=
  let response_text := pyStrip responseContent
  let proposals := (arrayExtract finopsPlaceholder response_text).1
  let finops_msg :=
    "FINOPS (Turn " ++ toString (state.turn_count + 1) ++ "):\n" ++ dumpsTop (Json.arr proposals)
  { state with
    finops_proposals := proposals
    turn_count := state.turn_count + 1
    negotiation_history := state.negotiation_history ++ [finops_msg] }

/-- The stage `performance_agent` of `main.py` with the model invocation stubbed.  Its
update replaces `performance_feedback` and `negotiation_history` only: it
does not touch `turn_count`. -/
def performance_agent (state : AgentState) (responseContent : String) : AgentState :=
  let response_text := pyStrip responseContent
  let feedback := (arrayExtract performancePlaceholder response_text).1
  let perf_msg :=
    "PERFORMANCE (Turn " ++ toString state.turn_count ++ "):\n" ++ dumpsTop (Json.arr feedback)
  { state with
    performance_feedback := feedback
    negotiation_history := state.negotiation_history ++ [perf_msg] }

/-- The stage `moderator_agent` of `main.py` with the model invocation stubbed.  Its
update replaces `final_recommendation` and `negotiation_history`. -/
def moderator_agent (state : AgentState) (responseContent : String) : AgentState :=
  let response_text := pyStrip responseContent
  let recommendation := (objectExtract response_text).1
  let moderator_msg := "MODERATOR DECISION:\n" ++ dumpsTop recommendation
  { state with
    final_recommendation := some moderator_msg
    negotiation_history := state.negotiation_history ++ [moderator_msg] }

/-- The three nodes of the compiled `StateGraph` workflow. -/
inductive WNode where
  | finops : WNode
  | performance : WNode
  | moderator : WNode
deriving DecidableEq

/-- The unconditional edges of the workflow (`add_edge` calls):
`finops → performance → moderator → END`, `none` standing for `END`. -/
def nextNode : WNode → Option WNode
  | WNode.finops => some WNode.performance
  | WNode.performance => some WNode.moderator
  | WNode.moderator => none

/-- The entry point: `workflow.set_entry_point("finops")`. -/
def entryPoint : WNode := WNode.finops

/-- Dispatch a node name to its stage function. -/
def runNode : WNode → AgentState → String → AgentState
  | WNode.finops => finops_agent
  | WNode.performance => performance_agent
  | WNode.moderator => moderator_agent

/-- The node sequence the compiled graph visits from a starting node, with
enough fuel to cover every node. -/
def traceFrom : Nat → Option WNode → List WNode
  | 0, _ => []
  | _, none => []
  | Nat.succ f, some n => n :: traceFrom f (nextNode n)

/-- The full execution trace of the compiled workflow. -/
def workflowTrace : List WNode := traceFrom 4 (some entryPoint)

/-- Run the compiled workflow on an initial state, the stubbed model
supplying one raw completion per node. -/
def runWorkflow (state : AgentState) (responses : WNode → String) : AgentState :=
  workflowTrace.foldl (fun s n => runNode n s (responses n)) state

/-- The initial state `analyze_infrastructure` passes to `app.stream`
(the terraform text and stats are irrelevant to the claims; empty values
stand for them). -/
def initialState : AgentState :=
  { terraform_config := ""
    cloud_stats := Json.obj []
    finops_proposals := []
    performance_feedback := []
    final_recommendation := none
    turn_count := 0
    negotiation_history := [] }

/-- Match of the regex `github\.com/([^/]+)/([^/]+)` anchored at the current
position: the literal `github.com/`, then one-or-more non-slash characters
(the maximal run, as the greedy `[^/]+` before the forced `/` is), a slash,
and one-or-more non-slash characters (again the maximal run). -/
def matchOwnerRepoAt (cs : List Char) : Option (List Char × List Char) :=
  if "github.com/".data.isPrefixOf cs then
    if ((cs.drop 11).takeWhile (fun c => ¬ c = '/')).isEmpty then none
    else
      match (cs.drop 11).drop ((cs.drop 11).takeWhile (fun c => ¬ c = '/')).length with
      | d :: r2 =>
        if d = '/' then
          if (r2.takeWhile (fun c => ¬ c = '/')).isEmpty then none
          else some ((cs.drop 11).takeWhile (fun c => ¬ c = '/'), r2.takeWhile (fun c => ¬ c = '/'))
        else none
      | [] => none
  else none

/-- Model of `re.search` for the pattern above: try every position left to right. -/
def searchOwnerRepo : List Char → Option (List Char × List Char)
  | [] => none
  | c :: tl =>
    match matchOwnerRepoAt (c :: tl) with
    | some g => some g
    | none => searchOwnerRepo tl

/-- Python `str.replace`: replace every non-overlapping occurrence of `pat`
(nonempty) left to right. -/
def replaceCore : Nat → List Char → List Char → List Char → List Char
  | 0, cs, _, _ => cs
  | Nat.succ f, cs, pat, repl =>
    if pat.isPrefixOf cs then repl ++ replaceCore f (cs.drop pat.length) pat repl
    else
      match cs with
      | [] => []
      | c :: tl => c :: replaceCore f tl pat repl

/-- Python `s.replace(pat, repl)` for a nonempty pattern. -/
def pyReplace (s pat repl : String) : String :=
  String.mk (replaceCore (s.data.length + 1) s.data pat.data repl.data)

/-- The function `parse_github_url` of `data/github_extractor.py`: `re.search` the
owner/repo pattern, raise `ValueError("Invalid GitHub URL")` when it does
not match anywhere in the URL, and strip `".git"` occurrences from the
second group. -/
def parse_github_url (repo_url : String) : Except String (String × String) :=
  match searchOwnerRepo repo_url.data with
  | none => Except.error "Invalid GitHub URL"
  | some (g1, g2) => Except.ok (String.mk g1, pyReplace (String.mk g2) ".git" "")

example : parse_github_url "https://github.com/owner/repo.git" =
    Except.ok ("owner", "repo") := rfl

example : parse_github_url "https://notgithub.com/x/y" = Except.ok ("x", "y") := rfl

example : parse_github_url "https://example.com/x/y" =
    Except.error "Invalid GitHub URL" := rfl

/-- A substring of `cs` matches the full owner/repo regex
`github\.com/([^/]+)/([^/]+)`: at some position the literal `github.com/`
is followed by a nonempty slash-free group, a slash, and a nonempty
slash-free group (anything may follow).  This is exactly the condition
under which `re.search` succeeds somewhere in the string. -/
def ownerRepoPattern (cs : List Char) : Prop :=
  ∃ a g1 g2 rest : List Char,
    cs = a ++ ("github.com/".data ++ (g1 ++ '/' :: (g2 ++ rest))) ∧
    g1 ≠ [] ∧ (∀ c ∈ g1, ¬ c = '/') ∧ g2 ≠ [] ∧ (∀ c ∈ g2, ¬ c = '/')

/-- The failure modes of Python's `open`/`read` relevant to
`parse_terraform_file`: `FileNotFoundError` is one `OSError` subclass among
others (permission denied, is-a-directory, ...). -/
inductive FileOpenError where
  | fileNotFound : FileOpenError
  | permissionDenied : FileOpenError
  | isADirectory : FileOpenError
deriving DecidableEq

/-- The function `parse_terraform_file` of `main.py` over an abstract filesystem `fs`
(mapping a path to its content or to the error opening it raises): the
`try/except FileNotFoundError` returns `""` for a missing file and lets any
other open error propagate. -/
def parse_terraform_file (fs : String → Except FileOpenError String) (file_path : String) :
    Except FileOpenError String :=
  match fs file_path with
  | Except.ok content => Except.ok content
  | Except.error FileOpenError.fileNotFound => Except.ok ""
  | Except.error e => Except.error e

def finopsInstructionMain : String :=
  "IMPORTANT: Return ONLY a valid JSON array. Start with [ and end with ]. Each object must have keys: description, estimated_savings, complexity, affected_services."

def finopsPromptTailMain : String :=
  "\n\nAnalyze the infrastructure and provide 3 specific cost-cutting proposals. For each, consider:\n1. Service-specific optimization (EC2, RDS, S3, Lambda, DynamoDB, etc.)\n2. Estimated monthly savings as percentage and dollar amount\n3. Implementation complexity (Low/Medium/High)\n4. Multi-service impact\n\n" ++ finopsInstructionMain ++ "\n\nExample format:\n[\n  \x7b\"description\": \"Migrate underutilized EC2 instances to Lambda for API processing\", \"estimated_savings\": \"25% (~$500/month)\", \"complexity\": \"High\", \"affected_services\": [\"EC2\", \"Lambda\"]\x7d,\n  \x7b\"description\": \"Enable S3 Intelligent-Tiering and compress DynamoDB data\", \"estimated_savings\": \"15% (~$150/month)\", \"complexity\": \"Low\", \"affected_services\": [\"S3\", \"DynamoDB\"]\x7d\n]"

def finopsPromptMain (infra_analysis history_context : String) : String :=
  "You are a FinOps Cloud Economist analyzing infrastructure costs across multiple AWS services.\n\n"
    ++ infra_analysis
    ++ "\n\n"
    ++ (if history_context = "" then "Generate initial proposals." else "Previous feedback: " ++ history_context)
    ++ finopsPromptTailMain

def performanceInstructionMain : String :=
  "IMPORTANT: Return ONLY a valid JSON array with one object per proposal. Start with [ and end with ]. Each object must have keys: proposal_index, risk_level, impact, mitigation, sla_impact."

def performancePromptTailMain : String :=
  "\n\nFor each proposal, assess:\n1. Performance risk level (Low/Medium/High)\n2. Service-specific latency/availability impact\n3. Mitigation strategy\n4. Impact on SLA compliance\n\n" ++ performanceInstructionMain ++ "\n\nExample format:\n[\n  \x7b\"proposal_index\": 0, \"risk_level\": \"Medium\", \"impact\": \"Potential 50ms latency increase during Lambda cold starts\", \"mitigation\": \"Use provisioned concurrency and connection pooling\", \"sla_impact\": \"99.9% to 99.5%\"\x7d,\n  \x7b\"proposal_index\": 1, \"risk_level\": \"Low\", \"impact\": \"No significant impact on performance\", \"mitigation\": \"Enable S3 versioning and DynamoDB auto-scaling\", \"sla_impact\": \"No change, 99.9%\"\x7d\n]"

def performancePromptMain (infra_analysis proposals_text : String) : String :=
  "You are a Performance SRE evaluating infrastructure changes across AWS services.\n\n"
    ++ infra_analysis
    ++ "\n\nFinOps proposals:\n"
    ++ proposals_text
    ++ performancePromptTailMain

def moderatorInstructionMain : String :=
  "IMPORTANT: Return ONLY a valid JSON object. Start with \x7b and end with \x7d. Keys: ranking, top_recommendation, implementation_steps, terraform_changes, rationale."

def moderatorPromptTailMain : String :=
  "\n\nYour task:\n1. Analyze each proposal's cost vs risk trade-off\n2. Consider multi-service impact and dependencies\n3. Rank the top 3 options\n4. Recommend the #1 best option with implementation roadmap\n5. Provide Terraform modification suggestions\n\n" ++ moderatorInstructionMain ++ "\n\nExample format:\n\x7b\n  \"ranking\": [\n    \x7b\"index\": 0, \"description\": \"Migrate to Lambda\", \"savings\": \"25%\", \"risk\": \"Medium\", \"score\": 8, \"affected_services\": [\"EC2\", \"Lambda\"]\x7d\n  ],\n  \"top_recommendation\": \"Implement multi-service cost optimization prioritizing Lambda migration...\",\n  \"implementation_steps\": [\"Step 1: Audit EC2 workloads\", \"Step 2: Create Lambda functions\", \"Step 3: Test failover\"],\n  \"terraform_changes\": \"Update resource blocks to include Lambda functions, add auto-scaling policies, enable S3 intelligent-tiering\",\n  \"rationale\": \"Best balance of cost savings with acceptable performance risk across services\"\n\x7d"

def moderatorPromptMain (infra_analysis proposals_text feedback_text : String) : String :=
  "You are the Lead Cloud Architect making final infrastructure decisions.\n\n"
    ++ infra_analysis
    ++ "\n\nFinOps Proposals:\n"
    ++ proposals_text
    ++ "\n\nPerformance Risk Assessment:\n"
    ++ feedback_text
    ++ moderatorPromptTailMain

def finopsInstructionAgents : String :=
  "Return ONLY a valid JSON array."

/-- The closing no-prose lines of the `agents/finops.py` prompt. -/
def agentsNoProseTail : String :=
  "\n\n  No markdown.\n  No commentary.\n  No explanation outside JSON.\n  "

def finopsPromptTailAgents : String :=
  "\n  -----------------------------------\n\n  Your Objective:\n\n  Identify the TOP 3 cost optimization opportunities that:\n\n  - Reduce unnecessary spending\n  - Avoid degrading performance\n  - Avoid increasing operational risk\n  - Do NOT contradict obvious utilization signals\n\n  -----------------------------------\n\n  Mandatory Evaluation Rules:\n\n  1. If CPU or utilization < 30% consistently → Likely overprovisioned.\n  2. If utilization > 80% sustained → Scaling down is NOT allowed.\n  3. If no autoscaling → Consider cost inefficiency during low traffic.\n  4. If high database cost but moderate compute → Investigate DB tier mismatch.\n  5. If storage is mostly inactive → Consider Cool/Archive tier.\n  6. If long backup retention → Flag potential waste.\n  7. If single-instance compute without scaling → Avoid aggressive downsizing.\n  8. Never recommend changes that would likely increase performance bottlenecks.\n\n  -----------------------------------\n\n  For each recommendation provide:\n\n  1. \"issue_detected\"\n    Clear description of cost inefficiency.\n\n  2. \"recommendation\"\n    Concrete Azure action.\n    (Example: downgrade App Service from P1v3 to B2, enable autoscale, move storage to Cool tier)\n\n  3. \"estimated_savings\"\n    - Provide percentage estimate.\n    - Provide dollar estimate ONLY if cost data explicitly includes pricing.\n    - If insufficient pricing info, provide percentage only.\n\n  4. \"risk_level\"\n    - Low (simple configuration change)\n    - Medium (requires validation/testing)\n    - High (architecture-level shift)\n\n  5. \"affected_services\"\n    List Azure services impacted.\n\n  6. \"confidence_level\"\n    - High (clear underutilization or waste)\n    - Medium (moderate signal)\n    - Low (limited cost clarity)\n\n  -----------------------------------\n\n  IMPORTANT CONSTRAINTS:\n\n  - Do NOT hallucinate Azure pricing.\n  - Do NOT invent metrics.\n  - If data is insufficient, state conservative estimates.\n  - Avoid generic advice like “optimize costs”.\n  - Avoid more than 3 recommendations.\n\n  -----------------------------------\n\n  " ++ finopsInstructionAgents ++ "\n  Start with [ and end with ].\n\n  Each object must follow:\n\n  \x7b\n    \"issue_detected\": string,\n    \"recommendation\": string,\n    \"estimated_savings\": string,\n    \"risk_level\": string,\n    \"affected_services\": [string],\n    \"confidence_level\": string\n  \x7d" ++ agentsNoProseTail

def finopsPromptAgents (azure_metrics azure_cost : String) : String :=
  "You are a Senior Azure FinOps Architect.\n\n  Your responsibility is STRICTLY cost optimization.\n  You are NOT a performance engineer.\n  You are NOT an architecture reviewer.\n\n  You must analyze Azure cost data in the context of runtime utilization metrics.\n  Do not re-analyze code structure unless it directly impacts cost.\n\n  You must make financially sound, production-safe recommendations.\n\n  -----------------------------------\n  AZURE RUNTIME METRICS:\n  "
    ++ azure_metrics
    ++ "\n\n  -----------------------------------\n  AZURE COST DATA:\n  "
    ++ azure_cost
    ++ finopsPromptTailAgents

/-- Proposition that `sub` occurs contiguously inside `s` (string-level). -/
def strContainsSub (s sub : String) : Prop := ∃ a b, s = a ++ sub ++ b

/-- Proposition that `s` ends with `suffixStr` (string-level). -/
def strEndsWith (s suffixStr : String) : Prop := ∃ a, s = a ++ suffixStr

/-- C1 (corrected).  Every stage of the `main.py` pipeline appends exactly one
entry to `negotiation_history`, but only `finops_agent` increments
`turn_count`; `performance_agent` and `moderator_agent` leave it unchanged,
so a run that starts with `len(transcript) == turnCount` ends with
`len(transcript) == turnCount + 2`. -/
theorem C1_transcript_turncount (st : AgentState) (resp : String)
    (responses : WNode → String)
    (hinit : st.negotiation_history.length = st.turn_count) :
    (finops_agent st resp).negotiation_history.length = st.negotiation_history.length + 1 ∧
    (finops_agent st resp).turn_count = st.turn_count + 1 ∧
    (performance_agent st resp).negotiation_history.length
      = st.negotiation_history.length + 1 ∧
    (performance_agent st resp).turn_count = st.turn_count ∧
    (moderator_agent st resp).negotiation_history.length
      = st.negotiation_history.length + 1 ∧
    (moderator_agent st resp).turn_count = st.turn_count ∧
    (runWorkflow st responses).negotiation_history.length
      = (runWorkflow st responses).turn_count + 2 := by
  refine ⟨?_, rfl, ?_, rfl, ?_, rfl, ?_⟩ <;>
    simp [finops_agent, performance_agent, moderator_agent, runWorkflow, workflowTrace,
      traceFrom, nextNode, entryPoint, runNode, hinit]

/-- C1 witness at a concrete state and stubbed responses. -/
theorem C1_transcript_turncount_witness :
    initialState.negotiation_history.length = initialState.turn_count ∧
    (runWorkflow initialState (fun _ => "resp")).negotiation_history.length
      = (runWorkflow initialState (fun _ => "resp")).turn_count + 2 :=
  ⟨rfl, (C1_transcript_turncount initialState "resp" (fun _ => "resp") rfl).2.2.2.2.2.2⟩

/-- C1 counterexample: after `performance_agent` runs on the state produced
by `finops_agent` from the initial state, the transcript has 2 entries but
`turn_count` is 1 — the claimed invariant `len(transcript) == turnCount`
does not hold after each stage. -/
theorem C1_counterexample :
    (performance_agent (finops_agent initialState "resp") "resp").negotiation_history.length = 2 ∧
    (performance_agent (finops_agent initialState "resp") "resp").turn_count = 1 ∧
    ¬ ((performance_agent (finops_agent initialState "resp") "resp").negotiation_history.length
        = (performance_agent (finops_agent initialState "resp") "resp").turn_count) := by
  refine ⟨rfl, rfl, ?_⟩
  intro h
  have h2 : (2 : Nat) = 1 := h
  exact absurd h2 (by decide)

/-- C2 (corrected).  In the `main.py` pipeline the structured-extraction
step of each stage never raises: the `try/except json.JSONDecodeError`
around the bracket scan catches every decode error and substitutes the
stage's placeholder, so the step always returns a value. -/
theorem C2_main_pipeline_extraction_never_raises (raw : String) :
    (∃ r, arrayExtractStep finopsPlaceholder (pyStrip raw) = Except.ok r) ∧
    (∃ r, arrayExtractStep performancePlaceholder (pyStrip raw) = Except.ok r) ∧
    (∃ r, objectExtractStep (pyStrip raw) = Except.ok r) := by
  refine ⟨?_, ?_, ?_⟩
  · cases h : arrayTryBody finopsPlaceholder (pyStrip raw) with
    | ok r => exact ⟨r, by rw [arrayExtractStep, h]⟩
    | error e => exact ⟨_, by rw [arrayExtractStep, h]⟩
  · cases h : arrayTryBody performancePlaceholder (pyStrip raw) with
    | ok r => exact ⟨r, by rw [arrayExtractStep, h]⟩
    | error e => exact ⟨_, by rw [arrayExtractStep, h]⟩
  · cases h : objectTryBody (pyStrip raw) with
    | ok r => exact ⟨_, by rw [objectExtractStep, h]⟩
    | error e => exact ⟨_, by rw [objectExtractStep, h]⟩

/-- C2 counterexample: the extraction in `agents/moderator.py` is a bare
`json.loads(response_text)` with no `try/except`, and it raises a
`JSONDecodeError` on the unparseable output `"not json at all"` instead of
substituting a placeholder. -/
theorem C2_counterexample :
    agentsModeratorEvaluation "not json at all" = Except.error PyJsonError.decodeError := rfl

theorem isPrefixOf_iff_exists_append :
    ∀ p l : List Char, p.isPrefixOf l = true ↔ ∃ t, l = p ++ t := by
  intro p
  induction p with
  | nil =>
    intro l
    simp [List.isPrefixOf]
  | cons a as ih =>
    intro l
    cases l with
    | nil => simp [List.isPrefixOf]
    | cons b bs =>
      simp only [List.isPrefixOf, Bool.and_eq_true, beq_iff_eq, List.cons_append,
        List.cons.injEq, ih bs]
      constructor
      · rintro ⟨rfl, t, rfl⟩
        exact ⟨t, rfl, rfl⟩
      · rintro ⟨t, rfl, rfl⟩
        exact ⟨rfl, t, rfl⟩

theorem takeWhile_append_stop (p : Char → Bool) :
    ∀ (g : List Char) (d : Char) (x : List Char),
      (∀ c ∈ g, p c = true) → p d = false →
      (g ++ d :: x).takeWhile p = g := by
  intro g
  induction g with
  | nil =>
    intro d x _ hd
    simp [List.takeWhile_cons, hd]
  | cons a as ih =>
    intro d x hg hd
    rw [List.cons_append, List.takeWhile_cons, if_pos (hg a (List.mem_cons_self a as)),
      ih d x (fun c hc => hg c (List.mem_cons_of_mem a hc)) hd]

theorem dropWhile_eq_drop_takeWhile_length (p : Char → Bool) (t : List Char) :
    t.drop (t.takeWhile p).length = t.dropWhile p := by
  have h := List.takeWhile_append_dropWhile p t
  calc t.drop (t.takeWhile p).length
      = (t.takeWhile p ++ t.dropWhile p).drop (t.takeWhile p).length := by rw [h]
    _ = t.dropWhile p := List.drop_left _ _

theorem drop11_github (t : List Char) : ("github.com/".data ++ t).drop 11 = t := by
  have h : ("github.com/".data).length = 11 := rfl
  rw [← h]
  exact List.drop_left _ _

theorem matchOwnerRepoAt_some_pattern {cs : List Char} {g : List Char × List Char}
    (h : matchOwnerRepoAt cs = some g) :
    ∃ g1 g2 rest, cs = "github.com/".data ++ (g1 ++ '/' :: (g2 ++ rest)) ∧
      g1 ≠ [] ∧ (∀ c ∈ g1, ¬ c = '/') ∧ g2 ≠ [] ∧ (∀ c ∈ g2, ¬ c = '/') := by
  rw [matchOwnerRepoAt] at h
  split at h
  · rename_i hpre
    split at h
    · exact Option.noConfusion h
    · rename_i hne
      split at h
      · rename_i d r2 hdr
        split at h
        · rename_i hd
          split at h
          · exact Option.noConfusion h
          · rename_i hne2
            simp only [Option.some.injEq] at h
            obtain ⟨t, rfl⟩ := (isPrefixOf_iff_exists_append _ _).mp hpre
            subst hd
            have hr : ("github.com/".data ++ t).drop 11 = t := drop11_github t
            rw [hr] at hdr hne h
            rw [dropWhile_eq_drop_takeWhile_length] at hdr
            have ht : t = t.takeWhile (fun c => ¬ c = '/') ++ '/' :: r2 := by
              conv_lhs => rw [← List.takeWhile_append_dropWhile (fun c => ¬ c = '/') t, hdr]
            refine ⟨t.takeWhile (fun c => ¬ c = '/'), r2.takeWhile (fun c => ¬ c = '/'),
              r2.dropWhile (fun c => ¬ c = '/'), ?_, ?_, ?_, ?_, ?_⟩
            · rw [List.takeWhile_append_dropWhile, ← ht]
            · intro hnil
              rw [hnil] at hne
              exact hne rfl
            · intro c hc
              simpa using List.mem_takeWhile_imp hc
            · intro hnil
              rw [hnil] at hne2
              exact hne2 rfl
            · intro c hc
              simpa using List.mem_takeWhile_imp hc
        · exact Option.noConfusion h
      · exact Option.noConfusion h
  · exact Option.noConfusion h

theorem searchOwnerRepo_some_pattern :
    ∀ (cs : List Char) (g : List Char × List Char),
      searchOwnerRepo cs = some g → ownerRepoPattern cs := by
  intro cs
  induction cs with
  | nil => intro g h; exact Option.noConfusion h
  | cons c tl ih =>
    intro g h
    rw [searchOwnerRepo] at h
    split at h
    · rename_i g0 hm
      obtain ⟨g1, g2, rest, hcs, h1, h2, h3, h4⟩ := matchOwnerRepoAt_some_pattern hm
      exact ⟨[], g1, g2, rest, by rw [List.nil_append]; exact hcs, h1, h2, h3, h4⟩
    · obtain ⟨a, g1, g2, rest, hcs, h1, h2, h3, h4⟩ := ih g h
      exact ⟨c :: a, g1, g2, rest, by rw [List.cons_append, ← hcs], h1, h2, h3, h4⟩

theorem matchOwnerRepoAt_of_pattern (g1 g2 rest : List Char)
    (h1 : g1 ≠ []) (h2 : ∀ c ∈ g1, ¬ c = '/')
    (h3 : g2 ≠ []) (h4 : ∀ c ∈ g2, ¬ c = '/') :
    ∃ q, matchOwnerRepoAt ("github.com/".data ++ (g1 ++ '/' :: (g2 ++ rest))) = some q := by
  have hpre : ("github.com/".data).isPrefixOf
      ("github.com/".data ++ (g1 ++ '/' :: (g2 ++ rest))) = true :=
    (isPrefixOf_iff_exists_append _ _).mpr ⟨_, rfl⟩
  have hdrop : ("github.com/".data ++ (g1 ++ '/' :: (g2 ++ rest))).drop 11
      = g1 ++ '/' :: (g2 ++ rest) := drop11_github _
  have htw : (g1 ++ '/' :: (g2 ++ rest)).takeWhile (fun c => ¬ c = '/') = g1 :=
    takeWhile_append_stop _ g1 '/' (g2 ++ rest)
      (fun c hc => by simpa using h2 c hc) (by simp)
  have hne1 : g1.isEmpty = false := by
    cases g1 with
    | nil => exact absurd rfl h1
    | cons x xs => rfl
  have hdrop2 : (g1 ++ '/' :: (g2 ++ rest)).drop g1.length = '/' :: (g2 ++ rest) :=
    List.drop_left _ _
  refine ⟨(g1, (g2 ++ rest).takeWhile (fun c => ¬ c = '/')), ?_⟩
  rw [matchOwnerRepoAt, if_pos hpre, hdrop, htw, hne1]
  simp only [Bool.false_eq_true, if_false, hdrop2]
  simp
  cases g2 with
  | nil => exact absurd rfl h3
  | cons x xs =>
    refine ⟨Or.inl (by simp), ?_⟩
    simp only [List.cons_append, List.getElem_cons_zero]
    exact h4 x (List.mem_cons_self x xs)

theorem pattern_gives_search :
    ∀ (a g1 g2 rest : List Char),
      g1 ≠ [] → (∀ c ∈ g1, ¬ c = '/') → g2 ≠ [] → (∀ c ∈ g2, ¬ c = '/') →
      ∃ g, searchOwnerRepo (a ++ ("github.com/".data ++ (g1 ++ '/' :: (g2 ++ rest))))
        = some g := by
  intro a
  induction a with
  | nil =>
    intro g1 g2 rest h1 h2 h3 h4
    obtain ⟨q, hq⟩ := matchOwnerRepoAt_of_pattern g1 g2 rest h1 h2 h3 h4
    rw [List.nil_append]
    have hcons : "github.com/".data ++ (g1 ++ '/' :: (g2 ++ rest))
        = 'g' :: ("ithub.com/".data ++ (g1 ++ '/' :: (g2 ++ rest))) := rfl
    rw [hcons] at hq
    exact ⟨q, by rw [hcons, searchOwnerRepo, hq]⟩
  | cons c a2 ih =>
    intro g1 g2 rest h1 h2 h3 h4
    obtain ⟨g, hg⟩ := ih g1 g2 rest h1 h2 h3 h4
    cases hm : matchOwnerRepoAt
        (c :: (a2 ++ ("github.com/".data ++ (g1 ++ '/' :: (g2 ++ rest))))) with
    | some g0 => exact ⟨g0, by rw [List.cons_append, searchOwnerRepo, hm]⟩
    | none => exact ⟨g, by rw [List.cons_append, searchOwnerRepo, hm]; exact hg⟩

/-- C3 (corrected).  `parse_github_url` yields `("owner", "repo")` on
`https://github.com/owner/repo.git`, and fails with
`ValueError("Invalid GitHub URL")` whenever no substring of the URL matches
the full pattern `github.com/<owner>/<repo>` (the literal `github.com/`
followed by two nonempty slash-free groups separated by a slash); but
because `re.search` scans for the pattern anywhere in the string,
`https://notgithub.com/x/y` — which contains `github.com/x/y` as a
substring — parses successfully to `("x", "y")` rather than failing. -/
theorem C3_parse_github_url (url : String)
    (h : ¬ ownerRepoPattern url.data) :
    parse_github_url "https://github.com/owner/repo.git" = Except.ok ("owner", "repo") ∧
    parse_github_url "https://notgithub.com/x/y" = Except.ok ("x", "y") ∧
    parse_github_url url = Except.error "Invalid GitHub URL" := by
  refine ⟨rfl, rfl, ?_⟩
  rw [parse_github_url]
  cases hs : searchOwnerRepo url.data with
  | none => rfl
  | some g => exact absurd (searchOwnerRepo_some_pattern url.data g hs) h

/-- C3 witness: `https://github.com/x` contains `github.com/` but no full
`github.com/<owner>/<repo>` match, and parsing fails. -/
theorem C3_parse_github_url_witness :
    ¬ ownerRepoPattern "https://github.com/x".data ∧
    parse_github_url "https://github.com/x" = Except.error "Invalid GitHub URL" := by
  have hnp : ¬ ownerRepoPattern "https://github.com/x".data := by
    intro hp
    obtain ⟨a, g1, g2, rest, hcs, h1, h2, h3, h4⟩ := hp
    obtain ⟨g, hg⟩ := pattern_gives_search a g1 g2 rest h1 h2 h3 h4
    rw [← hcs] at hg
    have hnone : searchOwnerRepo "https://github.com/x".data = none := rfl
    rw [hnone] at hg
    exact Option.noConfusion hg
  exact ⟨hnp, (C3_parse_github_url "https://github.com/x" hnp).2.2⟩

/-- C3 counterexample: the claim says parsing `https://notgithub.com/x/y`
fails with a locator error; instead it returns the pair `("x", "y")`. -/
theorem C3_counterexample :
    parse_github_url "https://notgithub.com/x/y" = Except.ok ("x", "y") ∧
    parse_github_url "https://notgithub.com/x/y" ≠ Except.error "Invalid GitHub URL" :=
  ⟨rfl, fun h => Except.noConfusion (rfl.trans h)⟩

/-- C8 (confirmed).  The compiled workflow is the fixed linear node sequence
finops → performance → moderator (no branching: `nextNode` is a function,
and the trace from the entry point is exactly that list), and starting from
a state with no `final_recommendation`, the recommendation is still absent
after the first and second stages and is set exactly by the terminal
moderator stage. -/
theorem C8_linear_order_and_final_recommendation :
    workflowTrace = [WNode.finops, WNode.performance, WNode.moderator] ∧
    ∀ (st : AgentState) (responses : WNode → String),
      st.final_recommendation = none →
      (finops_agent st (responses WNode.finops)).final_recommendation = none ∧
      (performance_agent (finops_agent st (responses WNode.finops))
        (responses WNode.performance)).final_recommendation = none ∧
      ∃ m, (runWorkflow st responses).final_recommendation = some m := by
  refine ⟨rfl, ?_⟩
  intro st responses h
  refine ⟨by simpa [finops_agent] using h, by simpa [finops_agent, performance_agent] using h, ?_⟩
  exact ⟨_, rfl⟩

/-- C8 witness at the concrete initial state. -/
theorem C8_witness :
    initialState.final_recommendation = none ∧
    ∃ m, (runWorkflow initialState (fun _ => "resp")).final_recommendation = some m :=
  ⟨rfl, (C8_linear_order_and_final_recommendation.2 initialState (fun _ => "resp") rfl).2.2⟩

/-- C9 (confirmed).  With the model invoker stubbed to fixed canned
completions, the pipeline is a deterministic function of the initial state
and the responses: two runs from equal inputs produce identical
`finops_proposals`, `performance_feedback` and `final_recommendation`. -/
theorem C9_pipeline_deterministic (s1 s2 : AgentState) (r1 r2 : WNode → String)
    (hs : s1 = s2) (hr : ∀ n, r1 n = r2 n) :
    (runWorkflow s1 r1).finops_proposals = (runWorkflow s2 r2).finops_proposals ∧
    (runWorkflow s1 r1).performance_feedback = (runWorkflow s2 r2).performance_feedback ∧
    (runWorkflow s1 r1).final_recommendation = (runWorkflow s2 r2).final_recommendation := by
  subst hs
  have h : r1 = r2 := funext hr
  subst h
  exact ⟨rfl, rfl, rfl⟩

/-- C9 witness: two identical stubbed runs at a concrete state. -/
theorem C9_pipeline_deterministic_witness :
    (runWorkflow initialState (fun _ => "canned")).final_recommendation
      = (runWorkflow initialState (fun _ => "canned")).final_recommendation :=
  (C9_pipeline_deterministic initialState initialState (fun _ => "canned") (fun _ => "canned")
    rfl (fun _ => rfl)).2.2

/-- C10 (corrected).  `parse_terraform_file` returns the empty string
exactly for a file whose open raises `FileNotFoundError`; every other open
failure (permission denied, is-a-directory, ...) is not caught by its
`except FileNotFoundError` and propagates to the caller. -/
theorem C10_parse_terraform_file (fs : String → Except FileOpenError String) (path : String) :
    (fs path = Except.error FileOpenError.fileNotFound →
      parse_terraform_file fs path = Except.ok "") ∧
    (∀ e, e ≠ FileOpenError.fileNotFound → fs path = Except.error e →
      parse_terraform_file fs path = Except.error e) := by
  constructor
  · intro h
    rw [parse_terraform_file, h]
  · intro e he h
    rw [parse_terraform_file, h]
    cases e with
    | fileNotFound => exact absurd rfl he
    | permissionDenied => rfl
    | isADirectory => rfl

/-- C10 witness: a missing file yields the empty configuration. -/
theorem C10_parse_terraform_file_witness :
    parse_terraform_file (fun _ => Except.error FileOpenError.fileNotFound) "main.tf"
      = Except.ok "" :=
  (C10_parse_terraform_file (fun _ => Except.error FileOpenError.fileNotFound) "main.tf").1 rfl

/-- C10 counterexample: for a file that exists but cannot be opened
(permission denied), the claim says the function returns the empty string;
instead the error propagates. -/
theorem C10_counterexample :
    parse_terraform_file (fun _ => Except.error FileOpenError.permissionDenied) "main.tf"
      = Except.error FileOpenError.permissionDenied ∧
    parse_terraform_file (fun _ => Except.error FileOpenError.permissionDenied) "main.tf"
      ≠ Except.ok "" :=
  ⟨rfl, fun h => Except.noConfusion (rfl.trans h)⟩

theorem map_keep_snd {α β γ : Type} {g : α → β} {o : Option (α × γ)}
    {out : β} {rest : γ}
    (h : o.map (fun p => (g p.1, p.2)) = some (out, rest)) :
    ∃ o1, o = some (o1, rest) := by
  rcases o with _ | ⟨o1, r⟩
  · exact absurd h (by simp)
  · simp only [Option.map_some', Option.some.injEq, Prod.mk.injEq] at h
    exact ⟨o1, by rw [h.2]⟩

theorem parseStrBody_suffix : ∀ cs out rest, parseStrBody cs = some (out, rest) → rest <:+ cs := by
  intro cs
  induction cs using parseStrBody.induct with
  | case1 =>
    intro out rest h
    rw [parseStrBody] at h
    exact Option.noConfusion h
  | case2 R =>
    intro out rest h
    rw [parseStrBody] at h
    simp only [Option.some.injEq, Prod.mk.injEq] at h
    obtain ⟨h1, h2⟩ := h
    subst h2
    exact ⟨['"'], rfl⟩
  | case3 h1 h2 h3 h4 R hx =>
    intro out rest h
    rw [parseStrBody, hx] at h
    exact Option.noConfusion h
  | case4 h1 h2 h3 h4 m hx hr1 g1 g2 g3 g4 rest2 hg =>
    intro out rest h
    simp only [parseStrBody, hx, hg] at h
    rw [if_pos hr1] at h
    exact Option.noConfusion h
  | case5 h1 h2 h3 h4 m hx hr1 g1 g2 g3 g4 rest2 m2 hg hr2 ih =>
    intro out rest h
    simp only [parseStrBody, hx, hg] at h
    rw [if_pos hr1, if_pos hr2] at h
    obtain ⟨o1, hp⟩ := map_keep_snd h
    exact (ih o1 rest hp).trans ⟨['\\', 'u', h1, h2, h3, h4, '\\', 'u', g1, g2, g3, g4], rfl⟩
  | case6 h1 h2 h3 h4 m hx hr1 g1 g2 g3 g4 rest2 m2 hg hr2 =>
    intro out rest h
    simp only [parseStrBody, hx, hg] at h
    rw [if_pos hr1, if_neg hr2] at h
    exact Option.noConfusion h
  | case7 h1 h2 h3 h4 R m hx hr1 hshape =>
    intro out rest h
    simp only [parseStrBody, hx] at h
    rw [if_pos hr1] at h
    exact Option.noConfusion h
  | case8 h1 h2 h3 h4 R m hx hr1 hr2 =>
    intro out rest h
    simp only [parseStrBody, hx] at h
    rw [if_neg hr1, if_pos hr2] at h
    exact Option.noConfusion h
  | case9 h1 h2 h3 h4 R m hx hr1 hr2 ih =>
    intro out rest h
    simp only [parseStrBody, hx] at h
    rw [if_neg hr1, if_neg hr2] at h
    obtain ⟨o1, hp⟩ := map_keep_snd h
    exact (ih o1 rest hp).trans ⟨['\\', 'u', h1, h2, h3, h4], rfl⟩
  | case10 c R hshape hesc =>
    intro out rest h
    simp only [parseStrBody, hesc] at h
    exact Option.noConfusion h
  | case11 c R hshape e hesc ih =>
    intro out rest h
    simp only [parseStrBody, hesc] at h
    obtain ⟨o1, hp⟩ := map_keep_snd h
    exact (ih o1 rest hp).trans ⟨['\\', c], rfl⟩
  | case12 c R h1 h2 h3 hctrl =>
    intro out rest h
    simp only [parseStrBody] at h
    rw [if_pos hctrl] at h
    exact Option.noConfusion h
  | case13 c R h1 h2 h3 hctrl =>
    intro out rest h
    simp only [parseStrBody] at h
    rw [if_neg hctrl] at h
    obtain ⟨o1, hp⟩ := map_keep_snd h
    rename_i ih
    exact (ih o1 rest hp).trans ⟨[c], rfl⟩

theorem skipWs_suffix (cs : List Char) : skipWs cs <:+ cs :=
  List.dropWhile_suffix jsonWsChar

theorem scanIntPart_suffix : ∀ cs ip r, scanIntPart cs = some (ip, r) → r <:+ cs := by
  intro cs ip r h
  match cs with
  | [] => exact absurd h (by rw [scanIntPart]; simp)
  | c :: t =>
    rw [scanIntPart] at h
    split at h
    · simp only [Option.some.injEq, Prod.mk.injEq] at h
      rw [← h.2]
      exact ⟨[c], rfl⟩
    · split at h
      · simp only [Option.some.injEq, Prod.mk.injEq] at h
        rw [← h.2]
        exact (List.dropWhile_suffix Char.isDigit).trans ⟨[c], rfl⟩
      · exact Option.noConfusion h

theorem scanFrac_suffix (cs : List Char) : (scanFrac cs).2 <:+ cs := by
  rw [scanFrac.eq_def]
  split
  · rename_i c r
    split
    · split
      · exact List.suffix_rfl
      · exact (List.dropWhile_suffix Char.isDigit).trans ⟨[c], rfl⟩
    · exact List.suffix_rfl
  · exact List.suffix_rfl

theorem scanExp_suffix (cs : List Char) : (scanExp cs).2 <:+ cs := by
  rw [scanExp.eq_def]
  split
  · rename_i e rest
    split
    · split
      · rename_i s r2
        split
        · split
          · exact List.suffix_rfl
          · exact (List.dropWhile_suffix Char.isDigit).trans ⟨[e, s], rfl⟩
        · split
          · exact List.suffix_rfl
          · exact (List.dropWhile_suffix Char.isDigit).trans ⟨[e], rfl⟩
      · exact List.suffix_rfl
    · exact List.suffix_rfl
  · exact List.suffix_rfl

theorem scanSign_suffix (cs : List Char) : (scanSign cs).2 <:+ cs := by
  rw [scanSign.eq_def]
  split
  · rename_i c r
    split
    · exact ⟨[c], rfl⟩
    · exact List.suffix_rfl
  · exact List.suffix_rfl

theorem scanNumber_suffix : ∀ cs v rest, scanNumber cs = some (v, rest) → rest <:+ cs := by
  intro cs v rest h
  rw [scanNumber] at h
  split at h
  · simp only [Option.some.injEq, Prod.mk.injEq] at h
    rw [← h.2]
    exact List.drop_suffix 9 cs
  · split at h
    · exact Option.noConfusion h
    · rename_i ip r1 heq
      simp only [Option.some.injEq, Prod.mk.injEq] at h
      rw [← h.2]
      exact ((scanExp_suffix (scanFrac r1).2).trans (scanFrac_suffix r1)).trans
        ((scanIntPart_suffix _ ip r1 heq).trans (scanSign_suffix cs))
theorem map_keep_snd2 {α β γ : Type} (g : α → β) {o : Option (α × γ)}
    {out : β} {rest : γ}
    (h : (o.map fun p => (g p.1, p.2)) = some (out, rest)) :
    ∃ o1, o = some (o1, rest) := by
  rcases o with _ | ⟨o1, r⟩
  · exact absurd h (by simp)
  · simp only [Option.map_some', Option.some.injEq, Prod.mk.injEq] at h
    exact ⟨o1, by rw [h.2]⟩

theorem parseVal_succ (f : Nat) (cs : List Char) :
    parseVal (Nat.succ f) cs =
      match cs with
      | [] => none
      | c :: rest =>
        if c = '[' then parseArrTail f (skipWs rest)
        else if c = '\x7b' then parseObjTail f (skipWs rest)
        else if c = '"' then (parseStrBody rest).map fun p => (Json.str (String.mk p.1), p.2)
        else if "true".data.isPrefixOf cs then some (Json.bool true, cs.drop 4)
        else if "false".data.isPrefixOf cs then some (Json.bool false, cs.drop 5)
        else if "null".data.isPrefixOf cs then some (Json.null, cs.drop 4)
        else if "NaN".data.isPrefixOf cs then some (Json.num "NaN", cs.drop 3)
        else if "Infinity".data.isPrefixOf cs then some (Json.num "Infinity", cs.drop 8)
        else scanNumber cs := rfl

theorem parseArrTail_succ (f : Nat) (cs : List Char) :
    parseArrTail (Nat.succ f) cs =
      match cs with
      | [] => none
      | c :: r2 =>
        if c = ']' then some (Json.arr [], r2)
        else (parseElems f (c :: r2)).map fun p => (Json.arr p.1, p.2) := rfl

theorem parseObjTail_succ (f : Nat) (cs : List Char) :
    parseObjTail (Nat.succ f) cs =
      match cs with
      | [] => none
      | c :: r2 =>
        if c = '\x7d' then some (Json.obj [], r2)
        else (parseMembers f (c :: r2)).map fun p => (Json.obj (toPyDict p.1), p.2) := rfl

theorem parseElems_succ (f : Nat) (cs : List Char) :
    parseElems (Nat.succ f) cs =
      match parseVal f cs with
      | none => none
      | some (v, r0) =>
        match skipWs r0 with
        | [] => none
        | d :: r2 =>
          if d = ']' then some ([v], r2)
          else if d = ',' then
            match parseElems f (skipWs r2) with
            | none => none
            | some (vs, r3) => some (v :: vs, r3)
          else none := rfl

theorem parseMembers_succ (f : Nat) (cs : List Char) :
    parseMembers (Nat.succ f) cs =
      match cs with
      | [] => none
      | c :: r =>
        if c = '"' then
          match parseStrBody r with
          | none => none
          | some (kcs, r1) =>
            match skipWs r1 with
            | [] => none
            | d :: r2 =>
              if d = ':' then
                match parseVal f (skipWs r2) with
                | none => none
                | some (v, r3) =>
                  match skipWs r3 with
                  | [] => none
                  | d2 :: r4 =>
                    if d2 = '\x7d' then some ([(String.mk kcs, v)], r4)
                    else if d2 = ',' then
                      match parseMembers f (skipWs r4) with
                      | none => none
                      | some (kvs, r5) => some ((String.mk kcs, v) :: kvs, r5)
                    else none
              else none
        else none := rfl

theorem parse_suffix :
    ∀ f : Nat,
      (∀ cs v rest, parseVal f cs = some (v, rest) → rest <:+ cs) ∧
      (∀ cs v rest, parseArrTail f cs = some (v, rest) → rest <:+ cs) ∧
      (∀ cs v rest, parseObjTail f cs = some (v, rest) → rest <:+ cs) ∧
      (∀ cs vs rest, parseElems f cs = some (vs, rest) → rest <:+ cs) ∧
      (∀ cs ms rest, parseMembers f cs = some (ms, rest) → rest <:+ cs) := by
  intro f
  induction f with
  | zero =>
    refine ⟨?_, ?_, ?_, ?_, ?_⟩ <;> intro cs v rest h <;> exact Option.noConfusion h
  | succ f ih =>
    obtain ⟨ihv, iha, iho, ihe, ihm⟩ := ih
    refine ⟨?_, ?_, ?_, ?_, ?_⟩
    · intro cs v rest h
      rw [parseVal_succ] at h
      split at h
      · exact Option.noConfusion h
      · rename_i c rest0
        split at h
        · exact ((iha _ _ _ h).trans (skipWs_suffix rest0)).trans ⟨[c], rfl⟩
        · split at h
          · exact ((iho _ _ _ h).trans (skipWs_suffix rest0)).trans ⟨[c], rfl⟩
          · split at h
            · obtain ⟨o1, hp⟩ := map_keep_snd2 (fun x => Json.str (String.mk x)) h
              exact (parseStrBody_suffix rest0 o1 rest hp).trans ⟨[c], rfl⟩
            · split at h
              · simp only [Option.some.injEq, Prod.mk.injEq] at h
                rw [← h.2]
                exact List.drop_suffix 4 _
              · split at h
                · simp only [Option.some.injEq, Prod.mk.injEq] at h
                  rw [← h.2]
                  exact List.drop_suffix 5 _
                · split at h
                  · simp only [Option.some.injEq, Prod.mk.injEq] at h
                    rw [← h.2]
                    exact List.drop_suffix 4 _
                  · split at h
                    · simp only [Option.some.injEq, Prod.mk.injEq] at h
                      rw [← h.2]
                      exact List.drop_suffix 3 _
                    · split at h
                      · simp only [Option.some.injEq, Prod.mk.injEq] at h
                        rw [← h.2]
                        exact List.drop_suffix 8 _
                      · exact scanNumber_suffix _ v rest h
    · intro cs v rest h
      rw [parseArrTail_succ] at h
      split at h
      · exact Option.noConfusion h
      · rename_i c r2
        split at h
        · simp only [Option.some.injEq, Prod.mk.injEq] at h
          rw [← h.2]
          exact ⟨[c], rfl⟩
        · obtain ⟨o1, hp⟩ := map_keep_snd h
          exact ihe _ _ _ hp
    · intro cs v rest h
      rw [parseObjTail_succ] at h
      split at h
      · exact Option.noConfusion h
      · rename_i c r2
        split at h
        · simp only [Option.some.injEq, Prod.mk.injEq] at h
          rw [← h.2]
          exact ⟨[c], rfl⟩
        · obtain ⟨o1, hp⟩ := map_keep_snd2 (fun x => Json.obj (toPyDict x)) h
          exact ihm _ _ _ hp
    · intro cs vs rest h
      rw [parseElems_succ] at h
      split at h
      · exact Option.noConfusion h
      · rename_i v r0 hv
        split at h
        · exact Option.noConfusion h
        · rename_i d r2 heq2
          split at h
          · simp only [Option.some.injEq, Prod.mk.injEq] at h
            rw [← h.2]
            have h1 : r2 <:+ skipWs r0 := by rw [heq2]; exact ⟨[d], rfl⟩
            exact (h1.trans (skipWs_suffix r0)).trans (ihv _ _ _ hv)
          · split at h
            · split at h
              · exact Option.noConfusion h
              · rename_i vs2 r3 heq3
                simp only [Option.some.injEq, Prod.mk.injEq] at h
                rw [← h.2]
                have h1 : r3 <:+ r2 := (ihe _ _ _ heq3).trans (skipWs_suffix r2)
                have h2 : r2 <:+ skipWs r0 := by rw [heq2]; exact ⟨[d], rfl⟩
                exact ((h1.trans h2).trans (skipWs_suffix r0)).trans (ihv _ _ _ hv)
            · exact Option.noConfusion h
    · intro cs ms rest h
      rw [parseMembers_succ] at h
      split at h
      · exact Option.noConfusion h
      · rename_i c r
        split at h
        · split at h
          · exact Option.noConfusion h
          · rename_i kcs r1 hk
            split at h
            · exact Option.noConfusion h
            · rename_i d r2 heq2
              split at h
              · split at h
                · exact Option.noConfusion h
                · rename_i v r3 hval
                  split at h
                  · exact Option.noConfusion h
                  · rename_i d2 r4 heq4
                    split at h
                    · simp only [Option.some.injEq, Prod.mk.injEq] at h
                      rw [← h.2]
                      have h1 : r4 <:+ skipWs r3 := by rw [heq4]; exact ⟨[d2], rfl⟩
                      have h2 : r3 <:+ skipWs r2 := ihv _ _ _ hval
                      have h3 : r2 <:+ skipWs r1 := by rw [heq2]; exact ⟨[d], rfl⟩
                      have h4 : r1 <:+ r := parseStrBody_suffix r kcs r1 hk
                      exact (((((h1.trans (skipWs_suffix r3)).trans h2).trans
                        (skipWs_suffix r2)).trans h3).trans ((skipWs_suffix r1).trans h4)).trans
                        ⟨[c], rfl⟩
                    · split at h
                      · split at h
                        · exact Option.noConfusion h
                        · rename_i kvs r5 hmem
                          simp only [Option.some.injEq, Prod.mk.injEq] at h
                          rw [← h.2]
                          have h0 : r5 <:+ r4 := (ihm _ _ _ hmem).trans (skipWs_suffix r4)
                          have h1 : r4 <:+ skipWs r3 := by rw [heq4]; exact ⟨[d2], rfl⟩
                          have h2 : r3 <:+ skipWs r2 := ihv _ _ _ hval
                          have h3 : r2 <:+ skipWs r1 := by rw [heq2]; exact ⟨[d], rfl⟩
                          have h4 : r1 <:+ r := parseStrBody_suffix r kcs r1 hk
                          exact ((((((h0.trans h1).trans (skipWs_suffix r3)).trans h2).trans
                            (skipWs_suffix r2)).trans h3).trans
                            ((skipWs_suffix r1).trans h4)).trans ⟨[c], rfl⟩
                      · exact Option.noConfusion h
              · exact Option.noConfusion h
        · exact Option.noConfusion h

theorem parseElems_closes :
    ∀ f cs vs rest, parseElems f cs = some (vs, rest) → ∃ b, cs = b ++ ']' :: rest := by
  intro f
  induction f with
  | zero => intro cs vs rest h; exact Option.noConfusion h
  | succ f ih =>
    intro cs vs rest h
    rw [parseElems_succ] at h
    split at h
    · exact Option.noConfusion h
    · rename_i v r0 hv
      split at h
      · exact Option.noConfusion h
      · rename_i d r2 heq2
        split at h
        · rename_i hd
          simp only [Option.some.injEq, Prod.mk.injEq] at h
          obtain ⟨p, hp⟩ := (parse_suffix f).1 cs v r0 hv
          obtain ⟨w, hw⟩ : ∃ w, r0 = w ++ skipWs r0 :=
            ⟨r0.takeWhile jsonWsChar, (List.takeWhile_append_dropWhile jsonWsChar r0).symm⟩
          refine ⟨p ++ w, ?_⟩
          rw [← hp, hw, heq2, hd, ← h.2]
          simp [List.append_assoc]
        · split at h
          · rename_i hd2
            split at h
            · exact Option.noConfusion h
            · rename_i vs2 r3 heq3
              simp only [Option.some.injEq, Prod.mk.injEq] at h
              obtain ⟨b, hb⟩ := ih (skipWs r2) vs2 r3 heq3
              obtain ⟨p, hp⟩ := (parse_suffix f).1 cs v r0 hv
              obtain ⟨w, hw⟩ : ∃ w, r0 = w ++ skipWs r0 :=
                ⟨r0.takeWhile jsonWsChar, (List.takeWhile_append_dropWhile jsonWsChar r0).symm⟩
              obtain ⟨w2, hw2⟩ : ∃ w2, r2 = w2 ++ skipWs r2 :=
                ⟨r2.takeWhile jsonWsChar, (List.takeWhile_append_dropWhile jsonWsChar r2).symm⟩
              refine ⟨p ++ w ++ d :: (w2 ++ b), ?_⟩
              rw [← hp, hw, heq2, hw2, hb, ← h.2]
              simp [List.append_assoc]
          · exact Option.noConfusion h

theorem parseArrTail_decomp :
    ∀ f cs v rest, parseArrTail f cs = some (v, rest) →
      (∃ xs, v = Json.arr xs) ∧ ∃ b, cs = b ++ ']' :: rest := by
  intro f cs v rest h
  cases f with
  | zero => exact Option.noConfusion h
  | succ f =>
    rw [parseArrTail_succ] at h
    split at h
    · exact Option.noConfusion h
    · rename_i c r2
      split at h
      · rename_i hc
        simp only [Option.some.injEq, Prod.mk.injEq] at h
        exact ⟨⟨[], h.1.symm⟩, [], by rw [hc, ← h.2]; rfl⟩
      · obtain ⟨o1, hp⟩ := map_keep_snd h
        rw [hp] at h
        simp only [Option.map_some', Option.some.injEq, Prod.mk.injEq] at h
        exact ⟨⟨o1, h.1.symm⟩, parseElems_closes f _ o1 rest hp⟩

theorem parseObjTail_shape :
    ∀ f cs v rest, parseObjTail f cs = some (v, rest) → ∃ kvs, v = Json.obj kvs := by
  intro f cs v rest h
  cases f with
  | zero => exact Option.noConfusion h
  | succ f =>
    rw [parseObjTail_succ] at h
    split at h
    · exact Option.noConfusion h
    · rename_i c r2
      split at h
      · simp only [Option.some.injEq, Prod.mk.injEq] at h
        exact ⟨[], h.1.symm⟩
      · obtain ⟨o1, hp⟩ := map_keep_snd2 (fun x => Json.obj (toPyDict x)) h
        rw [hp] at h
        simp only [Option.map_some', Option.some.injEq, Prod.mk.injEq] at h
        exact ⟨toPyDict o1, h.1.symm⟩

theorem scanNumber_shape :
    ∀ cs v rest, scanNumber cs = some (v, rest) → ∃ lx, v = Json.num lx := by
  intro cs v rest h
  rw [scanNumber] at h
  split at h
  · simp only [Option.some.injEq, Prod.mk.injEq] at h
    exact ⟨_, h.1.symm⟩
  · split at h
    · exact Option.noConfusion h
    · simp only [Option.some.injEq, Prod.mk.injEq] at h
      exact ⟨_, h.1.symm⟩

theorem parseVal_arr_decomp :
    ∀ f cs xs rest, parseVal f cs = some (Json.arr xs, rest) →
      ∃ a b, cs = a ++ '[' :: (b ++ ']' :: rest) := by
  intro f cs xs rest h
  cases f with
  | zero => exact Option.noConfusion h
  | succ f =>
    rw [parseVal_succ] at h
    split at h
    · exact Option.noConfusion h
    · rename_i c rest0
      split at h
      · rename_i hc
        obtain ⟨⟨ys, hys⟩, b, hb⟩ := parseArrTail_decomp f _ _ rest h
        obtain ⟨w, hw⟩ : ∃ w, rest0 = w ++ skipWs rest0 :=
          ⟨rest0.takeWhile jsonWsChar, (List.takeWhile_append_dropWhile jsonWsChar rest0).symm⟩
        refine ⟨[], w ++ b, ?_⟩
        rw [hc, hw, hb]
        simp [List.append_assoc]
      · split at h
        · obtain ⟨kvs, hkvs⟩ := parseObjTail_shape f _ _ rest h
          exact absurd hkvs (by simp)
        · split at h
          · obtain ⟨o1, hp⟩ := map_keep_snd2 (fun x => Json.str (String.mk x)) h
            rw [hp] at h
            simp only [Option.map_some', Option.some.injEq, Prod.mk.injEq] at h
            exact absurd h.1 (by simp)
          · split at h
            · simp only [Option.some.injEq, Prod.mk.injEq] at h
              exact absurd h.1 (by simp)
            · split at h
              · simp only [Option.some.injEq, Prod.mk.injEq] at h
                exact absurd h.1 (by simp)
              · split at h
                · simp only [Option.some.injEq, Prod.mk.injEq] at h
                  exact absurd h.1 (by simp)
                · split at h
                  · simp only [Option.some.injEq, Prod.mk.injEq] at h
                    exact absurd h.1 (by simp)
                  · split at h
                    · simp only [Option.some.injEq, Prod.mk.injEq] at h
                      exact absurd h.1 (by simp)
                    · obtain ⟨lx, hlx⟩ := scanNumber_shape _ _ rest h
                      exact absurd hlx (by simp)

theorem pyLoadsCore_arr_brackets {cs : List Char} {xs : List Json}
    (h : pyLoadsCore cs = Except.ok (Json.arr xs)) :
    ∃ a b c, cs = a ++ '[' :: (b ++ ']' :: c) := by
  rw [pyLoadsCore] at h
  split at h
  · rename_i v rest heq
    split at h
    · simp only [Except.ok.injEq] at h
      subst h
      obtain ⟨a, b, hab⟩ := parseVal_arr_decomp _ _ xs rest heq
      obtain ⟨w, hw⟩ : ∃ w, cs = w ++ skipWs cs :=
        ⟨cs.takeWhile jsonWsChar, (List.takeWhile_append_dropWhile jsonWsChar cs).symm⟩
      exact ⟨w ++ a, b, rest, by rw [hw, hab]; simp [List.append_assoc]⟩
    · exact Except.noConfusion h
  · exact Except.noConfusion h
example {l : List Char} {x : Char} (h : l.getLast? = some x) : ∃ l0, l = l0 ++ [x] :=
  (List.getLast?_eq_some_iff.mp h)

theorem firstIdx_occ (c : Char) (a b : List Char) :
    ∃ k, firstIdx c (a ++ c :: b) = some k ∧ k ≤ a.length := by
  induction a with
  | nil => exact ⟨0, by rw [List.nil_append, firstIdx]; simp, Nat.zero_le _⟩
  | cons x tl ih =>
    obtain ⟨k, hk, hle⟩ := ih
    by_cases hx : x = c
    · exact ⟨0, by rw [List.cons_append, firstIdx]; simp [hx], Nat.zero_le _⟩
    · exact ⟨k + 1, by rw [List.cons_append, firstIdx]; simp [hx, hk], Nat.succ_le_succ hle⟩

theorem lastIdx_occ (c : Char) (a b : List Char) :
    ∃ k, lastIdx c (a ++ c :: b) = some k ∧ a.length ≤ k := by
  induction a with
  | nil =>
    rw [List.nil_append, lastIdx]
    cases hL : lastIdx c b with
    | some k => exact ⟨k + 1, rfl, Nat.zero_le _⟩
    | none => exact ⟨0, by simp, Nat.zero_le _⟩
  | cons x tl ih =>
    obtain ⟨k, hk, hle⟩ := ih
    refine ⟨k + 1, ?_, Nat.succ_le_succ hle⟩
    rw [List.cons_append, lastIdx, hk]

theorem firstIdx_drop (c : Char) :
    ∀ cs k, firstIdx c cs = some k → ∃ t, cs.drop k = c :: t := by
  intro cs
  induction cs with
  | nil => intro k h; exact Option.noConfusion h
  | cons x tl ih =>
    intro k h
    rw [firstIdx] at h
    split at h
    · rename_i hx
      simp only [Option.some.injEq] at h
      subst h
      exact ⟨tl, by rw [hx]; rfl⟩
    · rcases hp : firstIdx c tl with _ | k2 <;> rw [hp] at h
      · exact Option.noConfusion h
      · simp only [Option.map_some', Option.some.injEq] at h
        subst h
        exact ih k2 hp

theorem lastIdx_none_of_not_mem (c : Char) :
    ∀ l : List Char, c ∉ l → lastIdx c l = none := by
  intro l
  induction l with
  | nil => intro _; rfl
  | cons x tl ih =>
    intro h
    rw [lastIdx, ih (fun hm => h (List.mem_cons_of_mem x hm))]
    simp only [ite_eq_right_iff]
    intro hx
    exact absurd (hx ▸ List.mem_cons_self x tl) h

theorem firstIdx_append_of_not_mem (c : Char) :
    ∀ a l : List Char, c ∉ a → firstIdx c (a ++ l) = (firstIdx c l).map (· + a.length) := by
  intro a
  induction a with
  | nil =>
    intro l _
    rw [List.nil_append]
    cases firstIdx c l <;> simp
  | cons x tl ih =>
    intro l h
    have hx : ¬ x = c := fun hx => h (hx ▸ List.mem_cons_self x tl)
    rw [List.cons_append, firstIdx, if_neg hx, ih l (fun hm => h (List.mem_cons_of_mem x hm))]
    cases firstIdx c l <;> simp
    omega

theorem lastIdx_append (c : Char) :
    ∀ a l : List Char, lastIdx c (a ++ l) =
      match lastIdx c l with
      | some k => some (a.length + k)
      | none => lastIdx c a := by
  intro a
  induction a with
  | nil =>
    intro l
    rw [List.nil_append]
    cases hL : lastIdx c l <;> simp [lastIdx, hL]
  | cons x tl ih =>
    intro l
    rw [List.cons_append, lastIdx, ih l]
    cases hL : lastIdx c l with
    | some k =>
      simp only [hL, Option.some.injEq, List.length_cons]
      omega
    | none =>
      simp only [hL]
      conv_rhs => rw [lastIdx]
theorem parseVal_lbracket_arr :
    ∀ (f : Nat) (t : List Char) (v : Json) (rest : List Char),
      parseVal f ('[' :: t) = some (v, rest) → ∃ xs, v = Json.arr xs := by
  intro f t v rest h
  cases f with
  | zero => exact Option.noConfusion h
  | succ f =>
    have h' : parseArrTail f (skipWs t) = some (v, rest) := h
    exact (parseArrTail_decomp f _ _ _ h').1

theorem pyLoadsCore_lbracket_arr {t : List Char} {v : Json}
    (h : pyLoadsCore ('[' :: t) = Except.ok v) : ∃ xs, v = Json.arr xs := by
  rw [pyLoadsCore] at h
  have hsk : skipWs ('[' :: t) = '[' :: t := rfl
  rw [hsk] at h
  split at h
  · rename_i v2 rest heq
    split at h
    · simp only [Except.ok.injEq] at h
      subst h
      exact parseVal_lbracket_arr _ _ _ _ heq
    · exact Except.noConfusion h
  · exact Except.noConfusion h

theorem arrayExtract_no_bracket_pair (ph : String → Json) (text : String)
    (h : bracketSlice? '[' ']' text.data = none) :
    arrayExtract ph text = ([ph text], true) := by
  rw [arrayExtract, arrayTryBody, h]
  cases hp : pyLoadsCore text.data with
  | error e => rfl
  | ok v =>
    cases v with
    | arr xs =>
      obtain ⟨a, b, c, habc⟩ := pyLoadsCore_arr_brackets hp
      obtain ⟨s, hs, hsle⟩ := firstIdx_occ '[' a (b ++ ']' :: c)
      have hassoc : a ++ '[' :: (b ++ ']' :: c) = (a ++ '[' :: b) ++ ']' :: c := by
        simp [List.append_assoc]
      obtain ⟨e, he, hele⟩ := lastIdx_occ ']' (a ++ '[' :: b) c
      have he' : lastIdx ']' (a ++ '[' :: (b ++ ']' :: c)) = some e := by
        rw [hassoc]; exact he
      rw [habc, bracketSlice?] at h
      simp only [hs, he'] at h
      have hcond : s < e + 1 := by
        simp only [List.length_append, List.length_cons] at hele
        omega
      rw [if_pos hcond] at h
      exact Option.noConfusion h
    | null => rfl
    | bool b => rfl
    | num lx => rfl
    | str s => rfl
    | obj kvs => rfl

/-- C4 (corrected).  For array shape, when the extraction's parse succeeds
with a non-sequence value (which can only happen on the whole-text path:
the bracket slice always starts with `[`, so a successful parse of the
slice is always a sequence), the extractor returns the one-element
placeholder list carrying the raw text — the parsed object is discarded,
not wrapped. -/
theorem C4_bare_object_not_wrapped :
    (∀ (text : String) (v : Json),
      bracketSlice? '[' ']' text.data = none →
      pyLoadsCore text.data = Except.ok v →
      (∀ xs, v ≠ Json.arr xs) →
      arrayExtract finopsPlaceholder text = ([finopsPlaceholder text], true)) ∧
    (∀ (cs js : List Char) (v : Json),
      bracketSlice? '[' ']' cs = some js →
      pyLoadsCore js = Except.ok v → ∃ xs, v = Json.arr xs) := by
  constructor
  · intro text v h _ _
    exact arrayExtract_no_bracket_pair _ text h
  · intro cs js v hsl hload
    rw [bracketSlice?] at hsl
    cases hf : firstIdx '[' cs with
    | none =>
      simp only [hf] at hsl
      exact Option.noConfusion hsl
    | some s =>
      cases he : lastIdx ']' cs with
      | none =>
        simp only [hf, he] at hsl
        exact Option.noConfusion hsl
      | some e =>
        simp only [hf, he] at hsl
        split at hsl
        · rename_i hcond
          simp only [Option.some.injEq] at hsl
          obtain ⟨t, ht⟩ := firstIdx_drop '[' cs s hf
          obtain ⟨m, hm⟩ : ∃ m, e + 1 - s = m + 1 := ⟨e - s, by omega⟩
          rw [← hsl, pySlice, ht, hm, List.take_succ_cons] at hload
          exact pyLoadsCore_lbracket_arr hload
        · exact Option.noConfusion hsl

/-- C4 witness: raw text `"hello"` has no bracket pair, parses to a JSON
string (not a sequence), and the extractor substitutes the placeholder. -/
theorem C4_witness :
    bracketSlice? '[' ']' "\"hello\"".data = none ∧
    pyLoads "\"hello\"" = Except.ok (Json.str "hello") ∧
    arrayExtract finopsPlaceholder "\"hello\"" = ([finopsPlaceholder "\"hello\""], true) :=
  ⟨rfl, rfl, C4_bare_object_not_wrapped.1 "\"hello\"" (Json.str "hello") rfl rfl
    (fun _ h => Json.noConfusion h)⟩

/-- C4 counterexample: for raw `{"a": 1}` the parse succeeds with a bare
object, and the claim says the extractor returns that object wrapped in a
one-element sequence; instead it returns the placeholder record carrying
the raw text, which differs from the wrapped parsed object. -/
theorem C4_counterexample :
    arrayExtract finopsPlaceholder "\x7b\"a\": 1\x7d" =
      ([finopsPlaceholder "\x7b\"a\": 1\x7d"], true) ∧
    pyLoads "\x7b\"a\": 1\x7d" = Except.ok (Json.obj [("a", Json.num "1")]) ∧
    [finopsPlaceholder "\x7b\"a\": 1\x7d"] ≠ [Json.obj [("a", Json.num "1")]] := by
  refine ⟨rfl, rfl, ?_⟩
  intro h
  simp only [List.cons.injEq, and_true, finopsPlaceholder, Json.obj.injEq,
    Prod.mk.injEq, String.reduceEq, false_and, and_false] at h
/-- C5 (corrected).  For array shape the claim holds universally: whenever
the raw text has no balanced bracket pair (`find('[') == -1 or
rfind(']') + 1 <= find('[')`), both the finops and the performance
extraction return exactly the one-element placeholder list with the
fallback taken, and the concrete example from the spec holds.  (The
object-shape half of the claim is refuted by the counterexample.) -/
theorem C5_no_bracket_pair_placeholder (text : String)
    (h : bracketSlice? '[' ']' text.data = none) :
    arrayExtract finopsPlaceholder text = ([finopsPlaceholder text], true) ∧
    arrayExtract performancePlaceholder text = ([performancePlaceholder text], true) ∧
    arrayExtract finopsPlaceholder "not json at all"
      = ([finopsPlaceholder "not json at all"], true) :=
  ⟨arrayExtract_no_bracket_pair finopsPlaceholder text h,
   arrayExtract_no_bracket_pair performancePlaceholder text h, rfl⟩

/-- C5 witness at a concrete bracket-free raw text. -/
theorem C5_witness :
    bracketSlice? '[' ']' "no brackets here".data = none ∧
    arrayExtract finopsPlaceholder "no brackets here"
      = ([finopsPlaceholder "no brackets here"], true) ∧
    arrayExtract finopsPlaceholder "not json at all"
      = ([finopsPlaceholder "not json at all"], true) :=
  ⟨rfl, (C5_no_bracket_pair_placeholder "no brackets here" rfl).1,
    (C5_no_bracket_pair_placeholder "no brackets here" rfl).2.2⟩

/-- C5 counterexample: under object shape the raw `123` has no brace pair
and parses as the JSON number `123`; the code returns that number with no
fallback, not the claimed single placeholder object. -/
theorem C5_counterexample :
    objectExtract "123" = (Json.num "123", false) ∧
    Json.num "123" ≠ moderatorPlaceholder "123" ∧
    (objectExtract "123").2 ≠ true :=
  ⟨rfl, fun h => Json.noConfusion h, fun h => Bool.noConfusion h⟩

/-- C6 (confirmed).  For a raw text `pre ++ core ++ post` where the prose
`pre` contains no `[` and the prose `post` contains no `]`, and `core` is a
syntactically valid JSON array (starting with `[`, ending with `]`), the
bracket scan recovers exactly `core` and the extraction returns the parsed
array verbatim with no fallback. -/
theorem C6_embedded_array_verbatim (pre core post : List Char) (xs : List Json)
    (hpre : '[' ∉ pre) (hpost : ']' ∉ post)
    (hhead : core.head? = some '[') (hlast : core.getLast? = some ']')
    (hload : pyLoadsCore core = Except.ok (Json.arr xs)) :
    arrayExtract finopsPlaceholder (String.mk (pre ++ core ++ post)) = (xs, false) := by
  obtain ⟨ct, hct⟩ : ∃ t, core = '[' :: t := by
    cases core with
    | nil => exact Option.noConfusion hhead
    | cons c t =>
      simp only [List.head?_cons, Option.some.injEq] at hhead
      exact ⟨t, by rw [hhead]⟩
  obtain ⟨core0, hcore0⟩ : ∃ l0, core = l0 ++ [']'] := List.getLast?_eq_some_iff.mp hlast
  have hdata : (String.mk (pre ++ core ++ post)).data = pre ++ core ++ post := rfl
  have hf : firstIdx '[' (pre ++ core ++ post) = some pre.length := by
    rw [List.append_assoc, firstIdx_append_of_not_mem '[' pre (core ++ post) hpre, hct,
      List.cons_append, firstIdx]
    simp
  have he : lastIdx ']' (pre ++ core ++ post) = some (pre.length + core0.length) := by
    have hsplit : pre ++ core ++ post = (pre ++ core0) ++ (']' :: post) := by
      rw [hcore0]
      simp [List.append_assoc]
    rw [hsplit, lastIdx_append, lastIdx, lastIdx_none_of_not_mem ']' post hpost]
    simp
  have hslice : bracketSlice? '[' ']' (pre ++ core ++ post) = some core := by
    rw [bracketSlice?]
    simp only [hf, he]
    rw [if_pos (by omega)]
    rw [pySlice]
    have hd : (pre ++ core ++ post).drop pre.length = core ++ post := by
      rw [List.append_assoc]
      exact List.drop_left pre (core ++ post)
    have hlen : pre.length + core0.length + 1 - pre.length = core.length := by
      rw [hcore0]
      simp only [List.length_append, List.length_cons, List.length_nil]
      omega
    rw [hd, hlen]
    simp only [Option.some.injEq]
    exact List.take_left core post
  rw [arrayExtract, arrayTryBody, hdata, hslice]
  simp only [hload]

/-- C6 witness: the spec's concrete prose-wrapped array. -/
theorem C6_witness :
    ('[' ∉ "Here is the result: ".data) ∧ (']' ∉ " Thanks.".data) ∧
    pyLoads "[\x7b\"description\":\"x\",\"estimated_savings\":\"10%\",\"complexity\":\"Low\",\"affected_services\":[\"EC2\"]\x7d]"
      = Except.ok (Json.arr [Json.obj [("description", Json.str "x"),
          ("estimated_savings", Json.str "10%"), ("complexity", Json.str "Low"),
          ("affected_services", Json.arr [Json.str "EC2"])]]) ∧
    arrayExtract finopsPlaceholder
      "Here is the result: [\x7b\"description\":\"x\",\"estimated_savings\":\"10%\",\"complexity\":\"Low\",\"affected_services\":[\"EC2\"]\x7d] Thanks."
      = ([Json.obj [("description", Json.str "x"),
          ("estimated_savings", Json.str "10%"), ("complexity", Json.str "Low"),
          ("affected_services", Json.arr [Json.str "EC2"])]], false) := by
  refine ⟨by decide, by decide, rfl, ?_⟩
  exact C6_embedded_array_verbatim "Here is the result: ".data
    "[\x7b\"description\":\"x\",\"estimated_savings\":\"10%\",\"complexity\":\"Low\",\"affected_services\":[\"EC2\"]\x7d]".data
    " Thanks.".data
    [Json.obj [("description", Json.str "x"), ("estimated_savings", Json.str "10%"),
      ("complexity", Json.str "Low"), ("affected_services", Json.arr [Json.str "EC2"])]]
    (by decide) (by decide) rfl rfl rfl
theorem strContainsSub_append_left (s t sub : String) (h : strContainsSub t sub) :
    strContainsSub (s ++ t) sub := by
  obtain ⟨a, b, rfl⟩ := h
  exact ⟨s ++ a, b, by simp [String.append_assoc]⟩

theorem strEndsWith_append_left (s t suf : String) (h : strEndsWith t suf) :
    strEndsWith (s ++ t) suf := by
  obtain ⟨a, rfl⟩ := h
  exact ⟨s ++ a, by simp [String.append_assoc]⟩

theorem strContainsSub_append_right (s t sub : String) (h : strContainsSub s sub) :
    strContainsSub (s ++ t) sub := by
  obtain ⟨a, b, rfl⟩ := h
  exact ⟨a, b ++ t, by simp [String.append_assoc]⟩

theorem strEndsWith_getLast {s t : String} (h : strEndsWith s t) (hne : t.data ≠ []) :
    s.data.getLast? = t.data.getLast? := by
  obtain ⟨a, rfl⟩ := h
  rw [String.data_append]
  exact List.getLast?_append_of_ne_nil a.data hne

set_option maxRecDepth 40000 in
/-- C7 (corrected).  Every compiled stage prompt contains the explicit
instruction to return only the bare JSON value; the three `main.py` prompts
then continue with an `Example format:` block, so the prompt ends with the
literal example JSON (last character `]` or `\x7d`), not with the
instruction; the `agents/finops.py` prompt does end with its no-prose lines
(`No markdown. / No commentary. / No explanation outside JSON.`). -/
theorem C7_prompt_instruction_position :
    (∀ infra hist : String,
      strContainsSub (finopsPromptMain infra hist) finopsInstructionMain ∧
      strEndsWith (finopsPromptMain infra hist) finopsPromptTailMain ∧
      (finopsPromptMain infra hist).data.getLast? = some ']') ∧
    (∀ infra props : String,
      strContainsSub (performancePromptMain infra props) performanceInstructionMain ∧
      strEndsWith (performancePromptMain infra props) performancePromptTailMain ∧
      (performancePromptMain infra props).data.getLast? = some ']') ∧
    (∀ infra props fb : String,
      strContainsSub (moderatorPromptMain infra props fb) moderatorInstructionMain ∧
      strEndsWith (moderatorPromptMain infra props fb) moderatorPromptTailMain ∧
      (moderatorPromptMain infra props fb).data.getLast? = some '\x7d') ∧
    (∀ met cost : String,
      strContainsSub (finopsPromptAgents met cost) finopsInstructionAgents ∧
      strEndsWith (finopsPromptAgents met cost) agentsNoProseTail) := by
  refine ⟨fun infra hist => ⟨?_, ?_, ?_⟩, fun infra props => ⟨?_, ?_, ?_⟩,
    fun infra props fb => ⟨?_, ?_, ?_⟩, fun met cost => ⟨?_, ?_⟩⟩
  · exact strContainsSub_append_left _ _ _ ⟨_, _, rfl⟩
  · exact ⟨_, rfl⟩
  · exact (strEndsWith_getLast ⟨_, rfl⟩ (by decide)).trans rfl
  · exact strContainsSub_append_left _ _ _ ⟨_, _, rfl⟩
  · exact ⟨_, rfl⟩
  · exact (strEndsWith_getLast ⟨_, rfl⟩ (by decide)).trans rfl
  · exact strContainsSub_append_left _ _ _ ⟨_, _, rfl⟩
  · exact ⟨_, rfl⟩
  · exact (strEndsWith_getLast ⟨_, rfl⟩ (by decide)).trans rfl
  · exact strContainsSub_append_left _ _ _ (strContainsSub_append_right _ _ _ ⟨_, _, rfl⟩)
  · exact strEndsWith_append_left _ _ _ ⟨_, rfl⟩

set_option maxRecDepth 40000 in
/-- C7 counterexample: the compiled finops prompt at a concrete state does
not end with the bare-JSON instruction sentence — its last character is the
`]` of the example block, while the instruction ends with `.`. -/
theorem C7_counterexample :
    ¬ strEndsWith (finopsPromptMain "INFRA" "") finopsInstructionMain := by
  rintro ⟨a, h⟩
  have hd := congrArg String.data h
  rw [String.data_append] at hd
  have h1 : (finopsPromptMain "INFRA" "").data.getLast? = some ']' := rfl
  rw [hd, List.getLast?_append_of_ne_nil a.data (by decide)] at h1
  have h2 : finopsInstructionMain.data.getLast? = some '.' := rfl
  rw [h2] at h1
  exact absurd h1 (by decide)
